import Mathlib

/-!
# Phoenix BIOS module extraction (`phoenix.c`)

A shallow embedding of `PhoenixModuleNameGet`, `PhoenixModule` and
`PhoenixExtract` and the properties established about them.

## Conventions of the embedding

* The image is addressed relative to `BIOSImage`: `Mem` maps an address
  `a` (standing for the pointer `BIOSImage + a`) to the byte stored there.
  Addresses at or past `BIOSLength` stand for whatever memory follows the
  buffer; the C code never checks a header read against `BIOSLength`, so the
  embedding does not either.  Pointers are wider than 32 bits: address
  arithmetic does not wrap.
* `uint32_t` values are naturals below `2 ^ 32`; arithmetic that C carries
  out in `unsigned int` is reduced modulo `2 ^ 32` explicitly.  `BIOSLength`
  and `Offset` are C `int`s that hold non-negative values.
* The host is little-endian, so that `le16toh` / `le32toh` are the identity
  and a field read is the little-endian value of its bytes.
* Structures have the natural alignment of the C ABI (no packing attribute
  is present in the source).
* Lines printed on standard output are informational and are left out;
  diagnostics on standard error and every file operation are recorded as
  `Event`s.  A `write` or `decode` event records the image span it reads.
* The collaborators that are not part of `phoenix.c` (`open`,
  `MMapOutputFile`, `LH5Decode`) are fields of `Env`.
* Indexing `PhoenixModuleNames` at or past its number of elements is
  undefined behaviour; the embedding makes it the outcome `Run.undef`.
* The embedding follows the text that `sprintf` produces for the file name
  even when it is longer than the buffer allocated for it; `filenameBuffer`
  gives the allocated size next to the text.
* The two loops of `PhoenixExtract` need not terminate: they are run for at
  most `fuel` iterations, and `Run.outOfFuel` (or `none`) says that this was
  not enough.
-/

namespace Phoenix

/-! ## Memory and little-endian fields -/

/-- Bytes of the address space, indexed relative to `BIOSImage`. -/
abbrev Mem := Nat → Nat

/-- The `unsigned char` stored at `BIOSImage + a`. -/
def rd8 (m : Mem) (a : Nat) : Nat := m a % 256

/-- A `uint16_t` field at `a`, after `le16toh`. -/
def le16 (m : Mem) (a : Nat) : Nat := rd8 m a + 256 * rd8 m (a + 1)

/-- A `uint32_t` field at `a`, after `le32toh`. -/
def le32 (m : Mem) (a : Nat) : Nat :=
  rd8 m a + 256 * rd8 m (a + 1) + 65536 * rd8 m (a + 2) + 16777216 * rd8 m (a + 3)

/-- The bytes of the span `[a, a + n)`, in address order. -/
def readSpan (m : Mem) (a : Nat) : Nat → List Nat
  | 0 => []
  | n + 1 => rd8 m a :: readSpan m (a + 1) n

/-- Memory holding the bytes `bs` from address `a` on, and `m` elsewhere. -/
def poke (m : Mem) (a : Nat) (bs : List Nat) : Mem :=
  fun x => if a ≤ x ∧ x < a + bs.length then bs.getD (x - a) 0 else m x

/-- The four bytes of a 32-bit value, least significant first. -/
def bytes32 (v : Nat) : List Nat :=
  [v % 256, v / 256 % 256, v / 65536 % 256, v / 16777216 % 256]

/-- Memory that is zero everywhere. -/
def zeroMem : Mem := fun _ => 0

/-! ## Outcomes -/

/-- Undefined behaviour that the embedding makes explicit. -/
inductive Fault where
  /-- `PhoenixModuleNames[i]` read with `i` at or past the number of
  elements of the array. -/
  | tableOverrun
  deriving DecidableEq, Repr

/-- Outcome of running a piece of the program. -/
inductive Run (α : Type) where
  /-- The code returned `a`. -/
  | ret (a : α)
  /-- The code ran into undefined behaviour. -/
  | undef (f : Fault)
  /-- The loop did not finish within the number of iterations allowed. -/
  | outOfFuel
  deriving DecidableEq, Repr

/-- What the program does besides returning a value. -/
inductive Event where
  /-- "Error: Invalid module signature at ..." on standard error. -/
  | errInvalidSignature (Offset : Nat)
  /-- "Error: Module overruns buffer at ..." on standard error. -/
  | errOverrun (Offset : Nat)
  /-- The call `open(filename, O_RDWR | O_CREAT | O_TRUNC, ...)` and whether
  it returned a descriptor. -/
  | openFile (filename : String) (ok : Bool)
  /-- "Error: unable to open ..." on standard error. -/
  | errOpen (filename : String)
  /-- The call `MMapOutputFile(filename, ExpLen)` returned `NULL`. -/
  | mapFailed (filename : String) (ExpLen : Nat)
  /-- The call `MMapOutputFile(filename, ExpLen)` succeeded and
  `LH5Decode(BIOSImage + src, Packed, Buffer, ExpLen)` was called. -/
  | decode (filename : String) (src Packed ExpLen : Nat)
  /-- The call `write(fd, BIOSImage + src, count)` on the descriptor of
  `filename`. -/
  | write (filename : String) (src count : Nat)
  /-- "Unsupported compression type for ..." on standard error. -/
  | errUnsupported (filename : String) (Compression : Nat)
  /-- "Error: Failed to locate BCPSYS offset." on standard error. -/
  | errLocate
  /-- "Error: retrieved invalid Modules offset." on standard error. -/
  | errModulesOffset
  /-- "ERROR: Phoenix TrustedCore images are not supported." on standard
  error. -/
  | errTrustedCore
  deriving DecidableEq, Repr

/-- The collaborators `phoenix.c` calls but does not define. -/
structure Env where
  /-- Whether `open` with `O_CREAT | O_TRUNC` succeeds for this name. -/
  openOk : String → Bool
  /-- Whether `MMapOutputFile(filename, size)` returns a buffer. -/
  mapOk : String → Nat → Bool
  /-- The bytes `LH5Decode` leaves in an output buffer of `ExpLen` bytes,
  from the packed bytes, the packed length and `ExpLen`. -/
  LH5Decode : List Nat → Nat → Nat → List Nat

/-! ## `PhoenixModuleNames` and `PhoenixModuleNameGet` -/

/-- The array `PhoenixModuleNames`: 26 elements `{Id, Name}`, the `Name`
pointer being `some` string or `none` for `NULL`.  The initialiser in the
source ends with `{'J', "SmartCardPAS"}`. -/
def PhoenixModuleNames : List (Nat × Option String) :=
  [ ('A'.toNat, some "acpi"),
    ('B'.toNat, some "bioscode"),
    ('C'.toNat, some "update"),
    ('D'.toNat, some "display"),
    ('E'.toNat, some "setup"),
    ('F'.toNat, some "font"),
    ('G'.toNat, some "decompcode"),
    ('I'.toNat, some "bootblock"),
    ('L'.toNat, some "logo"),
    ('M'.toNat, some "miser"),
    ('N'.toNat, some "rompilotload"),
    ('O'.toNat, some "network"),
    ('P'.toNat, some "rompilotinit"),
    ('R'.toNat, some "oprom"),
    ('S'.toNat, some "strings"),
    ('T'.toNat, some "template"),
    ('U'.toNat, some "user"),
    ('X'.toNat, some "romexec"),
    ('W'.toNat, some "wav"),
    ('H'.toNat, some "tcpa_H"),
    ('K'.toNat, some "tcpa_K"),
    ('Q'.toNat, some "tcpa_Q"),
    ('<'.toNat, some "tcpa_<"),
    ('*'.toNat, some "tcpa_*"),
    ('?'.toNat, some "tcpa_?"),
    ('J'.toNat, some "SmartCardPAS") ]

/-- The loop of `PhoenixModuleNameGet` over the elements from index `i` on:
it stops with `NULL` at an element whose `Name` is `NULL`, returns the
`Name` of an element whose `Id` matches, and otherwise moves to `i + 1`.
Running out of elements is a read past the end of the array. -/
def nameLoop (Id : Nat) : List (Nat × Option String) → Run (Option String)
  | [] => .undef .tableOverrun
  | (_, none) :: _ => .ret none
  | (c, some name) :: rest => if c = Id then .ret (some name) else nameLoop Id rest

/-- The function `PhoenixModuleNameGet(char Id)`. -/
def PhoenixModuleNameGet (Id : Nat) : Run (Option String) :=
  nameLoop Id PhoenixModuleNames

/-! ## Output file names -/

/-- One uppercase hexadecimal digit, as `%X` prints it. -/
def hexDigit (d : Nat) : Char :=
  if d < 10 then Char.ofNat (48 + d) else Char.ofNat (55 + d)

/-- The conversion `%02X` of a byte. -/
def hex2 (b : Nat) : String := String.mk [hexDigit (b / 16), hexDigit (b % 16)]

/-- The conversion `%1d` of a non-negative value. -/
def dec (n : Nat) : String := Nat.repr n

/-- The text `sprintf` produces from `"%s_%1d.rom"`. -/
def nameRom (name : String) (Id : Nat) : String := name ++ "_" ++ dec Id ++ ".rom"

/-- The text `sprintf` produces from `"%02X_%1d.rom"`. -/
def hexRom (Ty Id : Nat) : String := hex2 Ty ++ "_" ++ dec Id ++ ".rom"

/-- Lines 117-124 of `PhoenixModule`: the name of the output file for the
header bytes `Type` and `Id`. -/
def resolveFilename (Ty Id : Nat) : Run String :=
  match PhoenixModuleNameGet Ty with
  | .ret (some ModuleName) => .ret (nameRom ModuleName Id)
  | .ret none => .ret (hexRom Ty Id)
  | .undef f => .undef f
  | .outOfFuel => .outOfFuel

/-! ## The module header

Fields of `struct PhoenixModule` overlaid at `BIOSImage + Offset`.  The
displacements follow the natural alignment of the members: `Previous` 0,
`Signature` 4, `Id` 7, `Type` 8, `HeadLen` 9, `Compression` 10, one byte of
padding, `Offset` 12, `Segment` 14, `ExpLen1` 16, `Packed1` 20. -/

namespace Module

/-- Field `le32toh(Module->Previous)`. -/
def Previous (m : Mem) (Offset : Nat) : Nat := le32 m Offset

/-- Field `Module->Signature[i]`. -/
def Signature (m : Mem) (Offset i : Nat) : Nat := rd8 m (Offset + 4 + i)

/-- Field `Module->Id`. -/
def Id (m : Mem) (Offset : Nat) : Nat := rd8 m (Offset + 7)

/-- Field `Module->Type`. -/
def Type_ (m : Mem) (Offset : Nat) : Nat := rd8 m (Offset + 8)

/-- Field `Module->HeadLen`. -/
def HeadLen (m : Mem) (Offset : Nat) : Nat := rd8 m (Offset + 9)

/-- Field `Module->Compression`. -/
def Compression (m : Mem) (Offset : Nat) : Nat := rd8 m (Offset + 10)

/-- Field `le32toh(Module->ExpLen1)`. -/
def ExpLen1 (m : Mem) (Offset : Nat) : Nat := le32 m (Offset + 16)

/-- Field `le32toh(Module->Packed1)`. -/
def Packed1 (m : Mem) (Offset : Nat) : Nat := le32 m (Offset + 20)

end Module

/-- The test of line 104 negated: the signature bytes are `00 31 31`. -/
def validSignature (m : Mem) (Offset : Nat) : Bool :=
  Module.Signature m Offset 0 == 0 && Module.Signature m Offset 1 == 0x31 &&
    Module.Signature m Offset 2 == 0x31

/-- The test of line 111.  `Offset + HeadLen + 4` is an `int`; adding the
`uint32_t` `Packed1` converts the sum to `unsigned int`, so the addition
wraps modulo `2 ^ 32`, and `BIOSLength` is converted to `unsigned int` for
the comparison. -/
def overrunCheck (m : Mem) (BIOSLength Offset : Nat) : Bool :=
  decide ((Offset + Module.HeadLen m Offset + 4 + Module.Packed1 m Offset) % 4294967296
    > BIOSLength % 4294967296)

/-- What a call of `PhoenixModule` returns and does. -/
structure ModuleResult where
  /-- The value returned, as the 32 bits the caller stores in its
  `uint32_t Offset`. -/
  ret : Nat
  /-- The diagnostics and file operations of the call, in order. -/
  out : List Event
  deriving DecidableEq, Repr

/-- The `switch (Module->Compression)` of lines 134-165, entered once
`filename` is open. -/
def dispatch (env : Env) (m : Mem) (Offset : Nat) (filename : String) : List Event :=
  if Module.Compression m Offset = 5 then
    if env.mapOk filename (Module.ExpLen1 m Offset) then
      [.decode filename (Offset + Module.HeadLen m Offset + 4) (Module.Packed1 m Offset)
        (Module.ExpLen1 m Offset)]
    else [.mapFailed filename (Module.ExpLen1 m Offset)]
  else if Module.Compression m Offset = 0 then
    [.write filename (Offset + Module.HeadLen m Offset) (Module.Packed1 m Offset)]
  else
    [.errUnsupported filename (Module.Compression m Offset),
     .write filename (Offset + Module.HeadLen m Offset + 4) (Module.Packed1 m Offset)]

/-- The function `PhoenixModule(BIOSImage, BIOSLength, Offset)`. -/
def PhoenixModule (env : Env) (BIOSImage : Mem) (BIOSLength Offset : Nat) :
    Run ModuleResult :=
  if !validSignature BIOSImage Offset then
    .ret ⟨0, [.errInvalidSignature Offset]⟩
  else if overrunCheck BIOSImage BIOSLength Offset then
    .ret ⟨Module.Previous BIOSImage Offset, [.errOverrun Offset]⟩
  else
    match resolveFilename (Module.Type_ BIOSImage Offset) (Module.Id BIOSImage Offset) with
    | .undef f => .undef f
    | .outOfFuel => .outOfFuel
    | .ret filename =>
      if !env.openOk filename then
        .ret ⟨Module.Previous BIOSImage Offset, [.openFile filename false, .errOpen filename]⟩
      else
        .ret ⟨Module.Previous BIOSImage Offset,
          .openFile filename true :: dispatch env BIOSImage Offset filename⟩

/-! ## `PhoenixExtract` -/

/-- The literal `"BCPSYS"` as bytes. -/
def BCPSYS : List Nat := [66, 67, 80, 83, 89, 83]

/-- Whether `strncmp(BIOSImage + a, s, n)` is zero, for a literal `s` of `n`
non-zero bytes: the bytes at `a` are compared with `s` one by one up to the
first difference. -/
def strncmpEq (m : Mem) (a : Nat) : List Nat → Bool
  | [] => true
  | c :: cs => rd8 m a == c && strncmpEq m (a + 1) cs

/-- The `for` loop of lines 196-206, `ID` being the address of the current
`struct PhoenixID` (`Name` at 0, `Flags` at 6, `Length` at 8).  The result is
the value of `ID` when the loop is left, by the `break` or by its
condition; `none` when `fuel` iterations were not enough. -/
def scanID (m : Mem) (BIOSLength : Nat) : Nat → Nat → Option Nat
  | 0, _ => none
  | fuel + 1, ID =>
    if ID < BIOSLength ∧ rd8 m ID ≠ 0 then
      if strncmpEq m ID BCPSYS then some ID
      else scanID m BIOSLength fuel (ID + le16 m (ID + 8))
    else some ID

/-- The value `BIOSLength - 1` converted to `uint32_t`. -/
def mask (BIOSLength : Nat) : Nat := (BIOSLength + 4294967295) % 4294967296

/-- One call of `PhoenixModule` made by the walk: the offset passed and what
the call returned and did. -/
abbrev Visit := Nat × ModuleResult

/-- The `while (Offset)` loop of lines 234-237.  The call number `k` of
`PhoenixModule` runs against `envs k`.  The result lists the calls in the
order they are made. -/
def walk (m : Mem) (BIOSLength : Nat) : Nat → (Nat → Env) → Nat → Run (List Visit)
  | fuel, envs, Offset =>
    if Offset = 0 then .ret []
    else
      match fuel with
      | 0 => .outOfFuel
      | fuel + 1 =>
        match PhoenixModule (envs 0) m BIOSLength Offset with
        | .undef f => .undef f
        | .outOfFuel => .outOfFuel
        | .ret r =>
          match walk m BIOSLength fuel (fun k => envs (k + 1)) (r.ret &&& mask BIOSLength) with
          | .ret vs => .ret ((Offset, r) :: vs)
          | .undef f => .undef f
          | .outOfFuel => .outOfFuel

/-- What a call of `PhoenixExtract` returns and does. -/
structure ExtractResult where
  /-- The `Bool` returned. -/
  ret : Bool
  /-- Diagnostics of `PhoenixExtract` itself. -/
  diag : List Event
  /-- The calls of `PhoenixModule`, in order. -/
  visits : List Visit
  deriving DecidableEq, Repr

/-- The 32-bit field at `ID + 0x77`, masked: the value of `Offset` after
lines 227-228. -/
def anchorOffset (m : Mem) (BIOSLength ID : Nat) : Nat :=
  le32 m (ID + 0x77) &&& mask BIOSLength

/-- Lines 208-240 of `PhoenixExtract`, run with the value `ID` the scan
ended at. -/
def afterScan (fuel : Nat) (envs : Nat → Env) (BIOSImage : Mem) (BIOSLength ID : Nat) :
    Run ExtractResult :=
  if rd8 BIOSImage ID = 0 ∨ ID ≥ BIOSLength then
    .ret ⟨false, [.errLocate], []⟩
  else if anchorOffset BIOSImage BIOSLength ID = 0 then
    .ret ⟨false, [.errModulesOffset], []⟩
  else
    match walk BIOSImage BIOSLength fuel envs (anchorOffset BIOSImage BIOSLength ID) with
    | .ret vs => .ret ⟨true, [], vs⟩
    | .undef f => .undef f
    | .outOfFuel => .outOfFuel

/-- The function `PhoenixExtract(BIOSImage, BIOSLength, BIOSOffset, Offset1,
BCPSegmentOffset)`.  Each of its two loops may run for `fuel` iterations. -/
def PhoenixExtract (fuel : Nat) (envs : Nat → Env) (BIOSImage : Mem)
    (BIOSLength _BIOSOffset _Offset1 BCPSegmentOffset : Nat) : Run ExtractResult :=
  match scanID BIOSImage BIOSLength fuel (BCPSegmentOffset + 10) with
  | none => .outOfFuel
  | some ID => afterScan fuel envs BIOSImage BIOSLength ID

/-! ## Reading the events -/

/-- Whether the event touches an output file at all. -/
def Event.isFileOp : Event → Bool
  | .openFile _ _ => true
  | .mapFailed _ _ => true
  | .decode _ _ _ _ => true
  | .write _ _ _ => true
  | _ => false

/-- The image span `(start, length)` an event reads as payload. -/
def Event.payloadRead : Event → Option (Nat × Nat)
  | .decode _ src Packed _ => some (src, Packed)
  | .write _ src count => some (src, count)
  | _ => none

/-- The bytes an event puts into its output file: the span itself for a
`write` that completes, the decoder output for `decode`. -/
def Event.fileBytes (env : Env) (m : Mem) : Event → Option (String × List Nat)
  | .decode filename src Packed ExpLen =>
      some (filename, env.LH5Decode (readSpan m src Packed) Packed ExpLen)
  | .write filename src count => some (filename, readSpan m src count)
  | _ => none

/-- The spans read as payload by a list of events. -/
def payloadReads (out : List Event) : List (Nat × Nat) := out.filterMap Event.payloadRead

/-- The names of the files a list of events creates. -/
def filesCreated : List Event → List String
  | [] => []
  | .openFile filename true :: rest => filename :: filesCreated rest
  | _ :: rest => filesCreated rest

/-! ## Chains and traces, as the specification describes them -/

/-- Address of record number `k` of the chain of identifier records that
starts at `start`: the next record starts `Length` bytes (16-bit
little-endian field at `+8`) after the current one. -/
def recordAddr (m : Mem) : Nat → Nat → Nat
  | start, 0 => start
  | start, k + 1 => recordAddr m (start + le16 m (start + 8)) k

/-- The six name bytes of the record at `a` are `BCPSYS`. -/
def namedBCPSYS (m : Mem) (a : Nat) : Prop := readSpan m a 6 = BCPSYS

instance (m : Mem) (a : Nat) : Decidable (namedBCPSYS m a) := by
  unfold namedBCPSYS
  infer_instance

/-- The backward chain of module headers that starts at `Offset` visits
exactly the offsets `offs`: every offset on it is non-zero, the next one is
`Previous & (BIOSLength - 1)`, and after the last one that value is zero. -/
def isChain (m : Mem) (BIOSLength : Nat) : Nat → List Nat → Prop
  | Offset, [] => Offset = 0
  | Offset, o :: rest =>
    Offset ≠ 0 ∧ o = Offset ∧
      isChain m BIOSLength (Module.Previous m Offset &&& mask BIOSLength) rest

instance decIsChain (m : Mem) (BIOSLength : Nat) :
    ∀ (Offset : Nat) (offs : List Nat), Decidable (isChain m BIOSLength Offset offs)
  | Offset, [] => inferInstanceAs (Decidable (Offset = 0))
  | Offset, o :: rest =>
    have := decIsChain m BIOSLength (Module.Previous m Offset &&& mask BIOSLength) rest
    inferInstanceAs (Decidable (Offset ≠ 0 ∧ o = Offset ∧
      isChain m BIOSLength (Module.Previous m Offset &&& mask BIOSLength) rest))

/-- The two memories hold the same bytes outside `[d, d + 4)`. -/
def agreeOutside (m m' : Mem) (d : Nat) : Prop :=
  ∀ a, a < d ∨ d + 4 ≤ a → rd8 m a = rd8 m' a

/-- What a walk shows of its calls apart from the raw values returned: the
offsets visited and, for each, the diagnostics and file operations. -/
def traceOf (vs : List Visit) : List (Nat × List Event) :=
  vs.map (fun v => (v.1, v.2.out))

/-! ## Sample inputs -/

/-- The first 24 bytes of a module header with the given fields; the
padding byte and the load address are zero. -/
def header (Previous s0 s1 s2 Id Ty HeadLen Compression ExpLen1 Packed1 : Nat) : List Nat :=
  bytes32 Previous ++ [s0, s1, s2, Id, Ty, HeadLen, Compression, 0, 0, 0, 0, 0] ++
    bytes32 ExpLen1 ++ bytes32 Packed1

/-- An environment in which every file operation succeeds; the decoder
stub copies its input. -/
def okEnv : Env := ⟨fun _ => true, fun _ _ => true, fun bs _ ExpLen => bs.take ExpLen⟩

/-- An environment in which no file can be created. -/
def roEnv : Env := ⟨fun _ => false, fun _ _ => false, fun _ _ _ => []⟩

/-- An image with a `BCPSYS` record at address 10 whose anchor field holds
`anchor`, and nothing else. -/
def anchorImage (anchor : Nat) : Mem :=
  poke (poke zeroMem 10 (BCPSYS ++ [0, 0, 0x90, 0])) (10 + 0x77) (bytes32 anchor)

/-- An image of `0x200` bytes whose only module, at `0x100`, is an
uncompressed `acpi` module with `Packed1 = 0xFFFFFFFF` (the bytes 19 to 23
of the header are all `FF`). -/
def wrapImage : Mem :=
  poke (anchorImage 0x100) 0x100 (header 0 0 0x31 0x31 2 65 27 0 0xFF000000 0xFFFFFFFF)

/-- An image of `0x200` bytes whose only module, at `0x100`, is a `display`
module with compression code 3, `Packed1 = 0xFFFFFFFF` and
`Previous = 0x180`. -/
def wrapImageSalvage : Mem :=
  poke (anchorImage 0x100) 0x100 (header 0x180 0 0x31 0x31 1 68 27 3 0xFF000000 0xFFFFFFFF)

/-- An image of `0x200` bytes with, at `0x100`, a header whose signature is
`00 31 32` and whose `Previous` is `0x180`, and a valid module at `0x180`. -/
def badSigImage : Mem :=
  poke (poke (anchorImage 0x100) 0x100 (header 0x180 0 0x31 0x32 2 65 27 0 0 4))
    0x180 (header 0 0 0x31 0x31 1 68 27 0 0 4)

/-- An image with a single valid, uncompressed `acpi` module of four payload
bytes at `0x100`; it fits a buffer of `0x200` bytes. -/
def oneModuleImage : Mem :=
  poke (poke (anchorImage 0x100) 0x100 (header 0 0 0x31 0x31 2 65 27 0 0 4))
    (0x100 + 27) [0xDE, 0xAD, 0xBE, 0xEF]

/-- An image of `0x200` bytes with two identifier records, `BCPOST` at 10
(32 bytes long) and `BCPSYS` at 42, whose anchor `0x100` starts a chain of
three valid modules: uncompressed `acpi` at `0x100` (`Previous = 0x380`),
LH5 `display` at `0x180` (`Previous = 0xC0`) and `logo` with compression
code 3 at `0xC0` (`Previous = 0x200`). -/
def chainImage : Mem :=
  poke (poke (poke (poke (poke (poke (poke (poke zeroMem
    10 [66, 67, 80, 79, 83, 84, 0, 0, 0x20, 0])
    42 (BCPSYS ++ [0, 0, 0x90, 0]))
    (42 + 0x77) (bytes32 0x100))
    0x100 (header 0x380 0 0x31 0x31 2 65 27 0 0 4))
    (0x100 + 27) [0xDE, 0xAD, 0xBE, 0xEF])
    0x180 (header 0xC0 0 0x31 0x31 1 68 27 5 8 4))
    0xC0 (header 0x200 0 0x31 0x31 0 76 27 3 0 2))
    (0xC0 + 27 + 4) [0x11, 0x22]

/-- An image whose only module, at `0x100`, has the unregistered `Type`
byte `0x7E` and `Id = 2`; it fits a buffer of `0x200` bytes. -/
def hexImage : Mem :=
  poke (anchorImage 0x100) 0x100 (header 0 0 0x31 0x31 2 0x7E 27 0 0 4)

/-- An image of `0x200` bytes whose `BCPSYS` record at 10 has the anchor
field (at 129 to 132) inside the header of the `display` module at `0x78`:
byte 129 is that header's `HeadLen` and byte 130 its `Compression`.  The
anchor field holds `anchor`; `Packed1` is 1. -/
def aliasImage (anchor : Nat) : Mem :=
  poke (poke (poke (poke zeroMem 10 (BCPSYS ++ [0, 0, 0x90, 0]))
    0x78 (header 0 0 0x31 0x31 1 68 0 0 0 1)) (10 + 0x77) (bytes32 anchor))
    240 [0xA0, 0xA1, 0xA2, 0xA3, 0xA4, 0xA5]

/-- The image `chainImage` with `BIOSLength = 0x200` added to the raw value
of its anchor field: `0x300` instead of `0x100`. -/
def chainImageShifted : Mem := poke chainImage (42 + 0x77) (bytes32 0x300)

/-! ## `PhoenixTrustedExtract` -/

/-- The function `PhoenixTrustedExtract(BIOSImage, BIOSLength, BIOSOffset,
Offset1, BCPSegmentOffset)`: it prints its two messages and returns
`FALSE`. -/
def PhoenixTrustedExtract (_BIOSImage : Mem)
    (_BIOSLength _BIOSOffset _Offset1 _BCPSegmentOffset : Nat) : ExtractResult :=
  ⟨false, [.errTrustedCore], []⟩

/-! ## Header reads, buffer sizes and single steps of the walk -/

/-- The reads of line 104: `Signature[0]`, then `Signature[1]` when the
first byte is zero, then `Signature[2]` when the second is `0x31`. -/
def signatureReads (m : Mem) (Offset : Nat) : List (Nat × Nat) :=
  (Offset + 4, 1) ::
    if Module.Signature m Offset 0 = 0 then
      (Offset + 5, 1) ::
        if Module.Signature m Offset 1 = 0x31 then [(Offset + 6, 1)] else []
    else []

/-- The header fields a call of `PhoenixModule` reads, as spans
`(address, length)` in the order of their first use: the signature; then
`HeadLen` and `Packed1` for the test of line 111; `Previous` when that test
fires; otherwise `Type` for the lookup and, once it has returned, `Id`;
`Previous` when `open` fails; otherwise `Compression`, `ExpLen1` unless the
module is uncompressed, the load address `Offset` and `Segment` of lines
170-173, and `Previous`. -/
def headerReads (env : Env) (m : Mem) (BIOSLength Offset : Nat) : List (Nat × Nat) :=
  signatureReads m Offset ++
    if !validSignature m Offset then []
    else
      (Offset + 9, 1) :: (Offset + 20, 4) ::
        if overrunCheck m BIOSLength Offset then [(Offset, 4)]
        else
          (Offset + 8, 1) ::
            match resolveFilename (Module.Type_ m Offset) (Module.Id m Offset) with
            | .ret filename =>
              (Offset + 7, 1) ::
                if !env.openOk filename then [(Offset, 4)]
                else
                  (Offset + 10, 1) ::
                    ((if Module.Compression m Offset = 0 then [] else [(Offset + 16, 4)]) ++
                      [(Offset + 12, 2), (Offset + 14, 2), (Offset, 4)])
            | .undef _ => []
            | .outOfFuel => []

/-- Lines 117-124 with the buffer: the size passed to `malloc` for
`filename` and the text `sprintf` then writes into it, which takes one byte
more than its length for the terminator.  The registered names are ASCII,
so `strlen` is the number of characters. -/
def filenameBuffer (Ty Id : Nat) : Run (Nat × String) :=
  match PhoenixModuleNameGet Ty with
  | .ret (some ModuleName) => .ret (ModuleName.length + 7, nameRom ModuleName Id)
  | .ret none => .ret (9, hexRom Ty Id)
  | .undef f => .undef f
  | .outOfFuel => .outOfFuel

/-- The `while (Offset)` loop of lines 234-237 after `n` iterations, started
with the value `Offset`: the current value of `Offset` and the calls of
`PhoenixModule` made so far, in order.  Once `Offset` is zero the loop has
ended and nothing changes any more.  Call number `k` runs against
`envs k`. -/
def walkIter (m : Mem) (BIOSLength : Nat) (envs : Nat → Env) : Nat → Nat → Run (Nat × List Visit)
  | 0, Offset => .ret (Offset, [])
  | n + 1, Offset =>
    match walkIter m BIOSLength envs n Offset with
    | .ret (o, vs) =>
      if o = 0 then .ret (o, vs)
      else
        match PhoenixModule (envs n) m BIOSLength o with
        | .ret r => .ret (r.ret &&& mask BIOSLength, vs ++ [(o, r)])
        | .undef f => .undef f
        | .outOfFuel => .outOfFuel
    | .undef f => .undef f
    | .outOfFuel => .outOfFuel

/-! ## The registry and the file names, as the specification describes them -/

/-- The registry lookup of the specification: the name of the first entry
of the table whose code is `Ty`, and no name when there is none. -/
def registeredName (Ty : Nat) : Option String :=
  match PhoenixModuleNames.find? (fun e => e.1 == Ty) with
  | some (_, name) => name
  | none => none

/-- The file name of the specification: the registered name, or the two
hexadecimal digits of `Type` when there is none, followed by `_`, the
decimal `Id` and `.rom`. -/
def formattedName (Ty Id : Nat) : String :=
  match registeredName Ty with
  | some name => nameRom name Id
  | none => hexRom Ty Id

/-- The scan steps over the record at `a`: it is inside the buffer, its
first name byte is not zero and its name is not `BCPSYS`. -/
def stepsOver (m : Mem) (BIOSLength a : Nat) : Prop :=
  a < BIOSLength ∧ rd8 m a ≠ 0 ∧ ¬ namedBCPSYS m a

instance (m : Mem) (BIOSLength a : Nat) : Decidable (stepsOver m BIOSLength a) := by
  unfold stepsOver
  infer_instance

/-! ## Reading file names back -/

/-- The name part of the file name of the specification: the registered
name, or the two hexadecimal digits of `Type`. -/
def namePart (Ty : Nat) : String :=
  match registeredName Ty with
  | some name => name
  | none => hex2 Ty

/-- The number a decimal text stands for. -/
def undec (s : String) : Nat := s.data.foldl (fun n c => 10 * n + (c.toNat - 48)) 0

/-- The value of an uppercase hexadecimal digit. -/
def hexVal (c : Char) : Nat := if c.toNat < 58 then c.toNat - 48 else c.toNat - 55

/-- The `Type` code a name part stands for: the code of the table entry
with that name, or the value of the text read as hexadecimal digits. -/
def codeOfName (s : String) : Nat :=
  match PhoenixModuleNames.find? (fun e => e.2 == some s) with
  | some e => e.1
  | none => s.data.foldl (fun n c => 16 * n + hexVal c) 0

/-! ## Further sample inputs -/

/-- An environment in which files are created but `MMapOutputFile` fails. -/
def noMapEnv : Env := ⟨fun _ => true, fun _ _ => false, fun _ _ _ => []⟩

/-- An image of `0x200` bytes whose anchor `0x100` leads to a valid,
uncompressed `acpi` module whose `Previous` is `0x300`, that is `0x100`
again once masked. -/
def loopImage : Mem :=
  poke (anchorImage 0x100) 0x100 (header 0x300 0 0x31 0x31 2 65 27 0 0 4)

/-- An image of `0x200` bytes whose anchor is `0x1FF`, the last byte of the
buffer. -/
def edgeImage : Mem := anchorImage 0x1FF

/-- An image whose first identifier record, at 10, is named `BCPOST` and
has `Length = 0`. -/
def stuckImage : Mem := poke zeroMem 10 [66, 67, 80, 79, 83, 84, 0, 0, 0, 0]

/-- An image whose only module, at `0x100`, is a valid, uncompressed `acpi`
module with `Id = 10`; it fits a buffer of `0x200` bytes. -/
def tenImage : Mem :=
  poke (anchorImage 0x100) 0x100 (header 0 0 0x31 0x31 10 65 27 0 0 4)

/-- An image of `0x200` bytes whose anchor `0x1F0` leads to a valid,
uncompressed `acpi` module with `HeadLen = 8` and `Packed1 = 0`: the
header starts 16 bytes before the end of the buffer. -/
def tailImage : Mem :=
  poke (anchorImage 0x1F0) 0x1F0 (header 0 0 0x31 0x31 2 65 8 0 0 0)

/-! ## Basic facts -/

/-- A byte is below 256. -/
theorem rd8_lt (m : Mem) (a : Nat) : rd8 m a < 256 := Nat.mod_lt _ (by decide)

/-- A 16-bit field is below `2 ^ 16`. -/
theorem le16_lt (m : Mem) (a : Nat) : le16 m a < 65536 := by
  have h0 := rd8_lt m a
  have h1 := rd8_lt m (a + 1)
  unfold le16
  omega

/-- A 32-bit field is below `2 ^ 32`. -/
theorem le32_lt (m : Mem) (a : Nat) : le32 m a < 4294967296 := by
  have h0 := rd8_lt m a
  have h1 := rd8_lt m (a + 1)
  have h2 := rd8_lt m (a + 2)
  have h3 := rd8_lt m (a + 3)
  unfold le32
  omega

/-- For a length that fits an `int` and is not zero, the mask is
`BIOSLength - 1`. -/
theorem mask_eq_pred (BIOSLength : Nat) (h0 : 0 < BIOSLength) (h1 : BIOSLength ≤ 4294967296) :
    mask BIOSLength = BIOSLength - 1 := by
  unfold mask
  omega

/-- When the sum of line 111 does not wrap, the test is the comparison over
the integers. -/
theorem overrunCheck_exact (m : Mem) (BIOSLength Offset : Nat)
    (hlen : BIOSLength < 4294967296)
    (hsum : Offset + Module.HeadLen m Offset + 4 + Module.Packed1 m Offset < 4294967296) :
    overrunCheck m BIOSLength Offset = true ↔
      Offset + Module.HeadLen m Offset + 4 + Module.Packed1 m Offset > BIOSLength := by
  unfold overrunCheck
  rw [Nat.mod_eq_of_lt hlen, Nat.mod_eq_of_lt hsum]
  simp

/-- A module that stays inside the buffer passes the test of line 111. -/
theorem overrunCheck_of_le (m : Mem) (BIOSLength Offset : Nat)
    (hlen : BIOSLength < 4294967296)
    (hle : Offset + Module.HeadLen m Offset + 4 + Module.Packed1 m Offset ≤ BIOSLength) :
    overrunCheck m BIOSLength Offset = false := by
  have hsum : Offset + Module.HeadLen m Offset + 4 + Module.Packed1 m Offset < 4294967296 := by
    omega
  have h := overrunCheck_exact m BIOSLength Offset hlen hsum
  cases hc : overrunCheck m BIOSLength Offset with
  | false => rfl
  | true => exact absurd (h.mp hc) (by omega)

/-- The result of `PhoenixModule` on a header with an invalid signature. -/
theorem PhoenixModule_invalid (env : Env) (m : Mem) (BIOSLength Offset : Nat)
    (h : validSignature m Offset = false) :
    PhoenixModule env m BIOSLength Offset = .ret ⟨0, [.errInvalidSignature Offset]⟩ := by
  simp [PhoenixModule, h]

/-- The result of `PhoenixModule` on a module that fails the test of line 111. -/
theorem PhoenixModule_overrun (env : Env) (m : Mem) (BIOSLength Offset : Nat)
    (hs : validSignature m Offset = true) (ho : overrunCheck m BIOSLength Offset = true) :
    PhoenixModule env m BIOSLength Offset =
      .ret ⟨Module.Previous m Offset, [.errOverrun Offset]⟩ := by
  simp [PhoenixModule, hs, ho]

/-- The result of `PhoenixModule` when `open` fails. -/
theorem PhoenixModule_open_failed (env : Env) (m : Mem) (BIOSLength Offset : Nat)
    (filename : String)
    (hs : validSignature m Offset = true) (ho : overrunCheck m BIOSLength Offset = false)
    (hn : resolveFilename (Module.Type_ m Offset) (Module.Id m Offset) = .ret filename)
    (hf : env.openOk filename = false) :
    PhoenixModule env m BIOSLength Offset =
      .ret ⟨Module.Previous m Offset, [.openFile filename false, .errOpen filename]⟩ := by
  simp [PhoenixModule, hs, ho, hn, hf]

/-- The result of `PhoenixModule` when the output file is created. -/
theorem PhoenixModule_created (env : Env) (m : Mem) (BIOSLength Offset : Nat)
    (filename : String)
    (hs : validSignature m Offset = true) (ho : overrunCheck m BIOSLength Offset = false)
    (hn : resolveFilename (Module.Type_ m Offset) (Module.Id m Offset) = .ret filename)
    (hf : env.openOk filename = true) :
    PhoenixModule env m BIOSLength Offset =
      .ret ⟨Module.Previous m Offset,
        .openFile filename true :: dispatch env m Offset filename⟩ := by
  simp [PhoenixModule, hs, ho, hn, hf]

/-- When the name lookup runs into undefined behaviour, so does
`PhoenixModule`. -/
theorem PhoenixModule_undef (env : Env) (m : Mem) (BIOSLength Offset : Nat) (f : Fault)
    (hs : validSignature m Offset = true) (ho : overrunCheck m BIOSLength Offset = false)
    (hn : resolveFilename (Module.Type_ m Offset) (Module.Id m Offset) = .undef f) :
    PhoenixModule env m BIOSLength Offset = .undef f := by
  simp [PhoenixModule, hs, ho, hn]

/-- The name lookup needs no fuel. -/
theorem resolveFilename_ne_outOfFuel (Ty Id : Nat) : resolveFilename Ty Id ≠ .outOfFuel := by
  have hloop : ∀ tbl : List (Nat × Option String), nameLoop Ty tbl ≠ .outOfFuel := by
    intro tbl
    induction tbl with
    | nil => simp [nameLoop]
    | cons e rest ih =>
      obtain ⟨c, name⟩ := e
      cases name with
      | none => simp [nameLoop]
      | some n =>
        simp only [nameLoop]
        split
        · simp
        · exact ih
  unfold resolveFilename PhoenixModuleNameGet
  have := hloop PhoenixModuleNames
  split <;> simp_all

/-- Whatever `PhoenixModule` returns is `0` for an invalid signature and
`Previous` otherwise. -/
theorem PhoenixModule_ret (env : Env) (m : Mem) (BIOSLength Offset : Nat) (r : ModuleResult)
    (h : PhoenixModule env m BIOSLength Offset = .ret r) :
    r.ret = if validSignature m Offset then Module.Previous m Offset else 0 := by
  unfold PhoenixModule at h
  cases hs : validSignature m Offset
  · simp [hs] at h
    simp [← h]
  · simp only [hs, Bool.not_true, Bool.false_eq_true, if_false] at h
    split at h
    · simp at h
      simp [← h]
    · split at h
      · exact absurd h (by simp)
      · exact absurd h (by simp)
      · split at h <;> simp at h <;> simp [← h]

/-! ## C1: payload reads and the buffer bound -/

/-- Every payload read stays inside the buffer when the sum of line 111
does not wrap: a `write` or `decode` event of a call that returns reads a
span that ends at or before `BIOSLength`. -/
theorem payload_read_in_bounds (env : Env) (m : Mem) (BIOSLength Offset : Nat)
    (r : ModuleResult) (s n : Nat)
    (hlen : BIOSLength < 4294967296)
    (hsum : Offset + Module.HeadLen m Offset + 4 + Module.Packed1 m Offset < 4294967296)
    (hr : PhoenixModule env m BIOSLength Offset = .ret r)
    (hp : (s, n) ∈ payloadReads r.out) :
    s + n ≤ BIOSLength ∧
      Offset + Module.HeadLen m Offset + 4 + Module.Packed1 m Offset ≤ BIOSLength := by
  cases hs : validSignature m Offset with
  | false =>
    rw [PhoenixModule_invalid env m BIOSLength Offset hs] at hr
    simp only [Run.ret.injEq] at hr
    subst hr
    simp [payloadReads, Event.payloadRead] at hp
  | true =>
    cases ho : overrunCheck m BIOSLength Offset with
    | true =>
      rw [PhoenixModule_overrun env m BIOSLength Offset hs ho] at hr
      simp only [Run.ret.injEq] at hr
      subst hr
      simp [payloadReads, Event.payloadRead] at hp
    | false =>
      have hle : Offset + Module.HeadLen m Offset + 4 + Module.Packed1 m Offset ≤ BIOSLength := by
        by_contra hgt
        have := (overrunCheck_exact m BIOSLength Offset hlen hsum).mpr (by omega)
        rw [ho] at this
        exact absurd this (by simp)
      refine ⟨?_, hle⟩
      cases hn : resolveFilename (Module.Type_ m Offset) (Module.Id m Offset) with
      | undef f =>
        rw [PhoenixModule_undef env m BIOSLength Offset f hs ho hn] at hr
        exact absurd hr (by simp)
      | outOfFuel =>
        simp [PhoenixModule, hs, ho, hn] at hr
      | ret filename =>
        cases hf : env.openOk filename with
        | false =>
          rw [PhoenixModule_open_failed env m BIOSLength Offset filename hs ho hn hf] at hr
          simp only [Run.ret.injEq] at hr
          subst hr
          simp [payloadReads, Event.payloadRead] at hp
        | true =>
          rw [PhoenixModule_created env m BIOSLength Offset filename hs ho hn hf] at hr
          simp only [Run.ret.injEq] at hr
          subst hr
          unfold dispatch at hp
          split_ifs at hp <;>
            simp [payloadReads, Event.payloadRead] at hp <;>
            omega

/-- C1, evaluated at a failing input.  In an image of `0x200` bytes whose
anchor leads to a module at `0x100` with a valid signature, `HeadLen = 27`
and `Packed1 = 0xFFFFFFFF`, the 32-bit sum of line 111 wraps to `0x11E`, the
module is accepted, and `write` is asked for the span that starts at
`0x11B` and is `0xFFFFFFFF` bytes long, although over the integers
`Offset + HeadLen + 4 + Packed1` exceeds `BIOSLength` and the span ends far
outside the buffer. -/
theorem C1_payload_read_outside_buffer :
    PhoenixExtract 2 (fun _ => okEnv) wrapImage 0x200 0 0 0 =
      .ret ⟨true, [], [(0x100, ⟨0, [.openFile "acpi_2.rom" true,
        .write "acpi_2.rom" 0x11B 0xFFFFFFFF]⟩)]⟩ ∧
    payloadReads [.openFile "acpi_2.rom" true, .write "acpi_2.rom" 0x11B 0xFFFFFFFF] =
      [(0x11B, 0xFFFFFFFF)] ∧
    overrunCheck wrapImage 0x200 0x100 = false ∧
    ¬ (0x100 + Module.HeadLen wrapImage 0x100 + 4 + Module.Packed1 wrapImage 0x100 ≤ 0x200) ∧
    ¬ (0x11B + 0xFFFFFFFF ≤ 0x200) := by
  decide

/-! ## C2: the value returned by `PhoenixExtract` -/

/-- C2.  `PhoenixExtract` returns `FALSE` exactly when the scan ends at an
`ID` that is not a record inside the buffer (first name byte zero, or at or
past `BIOSLength`) or the 32-bit field at `ID + 0x77`, masked, is zero; and
when neither is the case, every walk that terminates, with whatever list of
calls `vs` (invalid signatures, overruns, failed file creations and unknown
compression codes included), makes it return `TRUE`. -/
theorem C2_extract_false_iff (fuel : Nat) (envs : Nat → Env) (m : Mem)
    (BIOSLength BIOSOffset Offset1 BCPSegmentOffset : Nat) :
    ((∃ r, PhoenixExtract fuel envs m BIOSLength BIOSOffset Offset1 BCPSegmentOffset = .ret r ∧
        r.ret = false) ↔
      ∃ ID, scanID m BIOSLength fuel (BCPSegmentOffset + 10) = some ID ∧
        ((rd8 m ID = 0 ∨ ID ≥ BIOSLength) ∨ le32 m (ID + 0x77) &&& mask BIOSLength = 0)) ∧
    (∀ ID vs, scanID m BIOSLength fuel (BCPSegmentOffset + 10) = some ID →
      ¬ (rd8 m ID = 0 ∨ ID ≥ BIOSLength) →
      le32 m (ID + 0x77) &&& mask BIOSLength ≠ 0 →
      walk m BIOSLength fuel envs (le32 m (ID + 0x77) &&& mask BIOSLength) = .ret vs →
      PhoenixExtract fuel envs m BIOSLength BIOSOffset Offset1 BCPSegmentOffset =
        .ret ⟨true, [], vs⟩) := by
  constructor
  · constructor
    · rintro ⟨r, hr, hf⟩
      unfold PhoenixExtract at hr
      cases hscan : scanID m BIOSLength fuel (BCPSegmentOffset + 10) with
      | none => simp [hscan] at hr
      | some ID =>
        refine ⟨ID, rfl, ?_⟩
        simp only [hscan, afterScan, anchorOffset] at hr
        by_cases h1 : rd8 m ID = 0 ∨ ID ≥ BIOSLength
        · exact Or.inl h1
        · by_cases h2 : le32 m (ID + 0x77) &&& mask BIOSLength = 0
          · exact Or.inr h2
          · rw [if_neg h1, if_neg h2] at hr
            split at hr
            · simp only [Run.ret.injEq] at hr
              rw [← hr] at hf
              exact absurd hf (by simp)
            · exact absurd hr (by simp)
            · exact absurd hr (by simp)
    · rintro ⟨ID, hscan, h⟩
      unfold PhoenixExtract
      simp only [hscan, afterScan, anchorOffset]
      by_cases h1 : rd8 m ID = 0 ∨ ID ≥ BIOSLength
      · exact ⟨⟨false, [.errLocate], []⟩, by rw [if_pos h1], rfl⟩
      · have h2 : le32 m (ID + 0x77) &&& mask BIOSLength = 0 := h.resolve_left h1
        exact ⟨⟨false, [.errModulesOffset], []⟩, by rw [if_neg h1, if_pos h2], rfl⟩
  · intro ID vs hscan h1 h2 hw
    unfold PhoenixExtract
    simp only [hscan, afterScan, anchorOffset]
    rw [if_neg h1, if_neg h2, hw]

/-- C2 witness: on `badSigImage` the only module visited has an invalid
signature and `PhoenixExtract` returns `TRUE`. -/
theorem C2_extract_false_iff_witness :
    PhoenixExtract 3 (fun _ => okEnv) badSigImage 0x200 0 0 0 =
      .ret ⟨true, [], [(0x100, ⟨0, [.errInvalidSignature 0x100]⟩)]⟩ :=
  (C2_extract_false_iff 3 (fun _ => okEnv) badSigImage 0x200 0 0 0).2 10
    [(0x100, ⟨0, [.errInvalidSignature 0x100]⟩)] (by decide) (by decide) (by decide) (by decide)

/-! ## C3: the value returned by `PhoenixModule` -/

/-- C3, counterexample.  At `0x100` in `badSigImage` the signature is
`00 31 32` and `Previous` is `0x180`; `PhoenixModule` returns `0`, not
`0x180`, and the walk of `PhoenixExtract` ends there without visiting
`0x180`. -/
theorem C3_invalid_signature_returns_zero :
    Module.Previous badSigImage 0x100 = 0x180 ∧
    PhoenixModule okEnv badSigImage 0x200 0x100 = .ret ⟨0, [.errInvalidSignature 0x100]⟩ ∧
    PhoenixExtract 3 (fun _ => okEnv) badSigImage 0x200 0 0 0 =
      .ret ⟨true, [], [(0x100, ⟨0, [.errInvalidSignature 0x100]⟩)]⟩ := by
  decide

/-- C3, amended.  `PhoenixModule` returns `0` for an invalid signature; it
returns the header's `Previous` (32-bit little-endian) when the module
overruns the buffer, and, once the output file name is resolved, both when
the file cannot be created and after each branch of the compression
`switch`.  No call returns anything else. -/
theorem C3_returns_previous_unless_invalid (env : Env) (m : Mem) (BIOSLength Offset : Nat) :
    (validSignature m Offset = false →
      ∃ out, PhoenixModule env m BIOSLength Offset = .ret ⟨0, out⟩) ∧
    (validSignature m Offset = true → overrunCheck m BIOSLength Offset = true →
      ∃ out, PhoenixModule env m BIOSLength Offset = .ret ⟨Module.Previous m Offset, out⟩) ∧
    (∀ filename, validSignature m Offset = true → overrunCheck m BIOSLength Offset = false →
      resolveFilename (Module.Type_ m Offset) (Module.Id m Offset) = .ret filename →
      ∃ out, PhoenixModule env m BIOSLength Offset = .ret ⟨Module.Previous m Offset, out⟩) ∧
    (∀ r, PhoenixModule env m BIOSLength Offset = .ret r →
      r.ret = if validSignature m Offset then Module.Previous m Offset else 0) := by
  refine ⟨fun h => ⟨_, PhoenixModule_invalid env m BIOSLength Offset h⟩,
    fun hs ho => ⟨_, PhoenixModule_overrun env m BIOSLength Offset hs ho⟩, ?_,
    fun r h => PhoenixModule_ret env m BIOSLength Offset r h⟩
  intro filename hs ho hn
  cases hf : env.openOk filename
  · exact ⟨_, PhoenixModule_open_failed env m BIOSLength Offset filename hs ho hn hf⟩
  · exact ⟨_, PhoenixModule_created env m BIOSLength Offset filename hs ho hn hf⟩

/-- C3 witness: the valid module at `0x180` of `badSigImage`, whose file
cannot be created, still yields its `Previous`. -/
theorem C3_returns_previous_unless_invalid_witness :
    ∃ out, PhoenixModule roEnv badSigImage 0x200 0x180 =
      .ret ⟨Module.Previous badSigImage 0x180, out⟩ :=
  (C3_returns_previous_unless_invalid roEnv badSigImage 0x200 0x180).2.2.1 "display_1.rom"
    (by decide) (by decide) (by decide)

/-! ## C4: an invalid signature produces no output -/

/-- C4.  When the three signature bytes are not `00 31 31`, `PhoenixModule`
returns after the diagnostic alone: it opens no file, reads no payload and
performs no file operation. -/
theorem C4_invalid_signature_no_output (env : Env) (m : Mem) (BIOSLength Offset : Nat)
    (h : ¬ (Module.Signature m Offset 0 = 0x00 ∧ Module.Signature m Offset 1 = 0x31 ∧
      Module.Signature m Offset 2 = 0x31)) :
    ∃ r, PhoenixModule env m BIOSLength Offset = .ret r ∧
      r.out = [.errInvalidSignature Offset] ∧
      filesCreated r.out = [] ∧ payloadReads r.out = [] ∧
      r.out.filter Event.isFileOp = [] := by
  have hv : validSignature m Offset = false := by
    cases hs : validSignature m Offset with
    | false => rfl
    | true =>
      exfalso
      apply h
      simpa [validSignature, and_assoc] using hs
  exact ⟨_, PhoenixModule_invalid env m BIOSLength Offset hv, rfl, rfl, rfl, rfl⟩

/-- C4 witness: the header at `0x100` of `badSigImage`. -/
theorem C4_invalid_signature_no_output_witness :
    ∃ r, PhoenixModule okEnv badSigImage 0x200 0x100 = .ret r ∧
      r.out = [.errInvalidSignature 0x100] ∧
      filesCreated r.out = [] ∧ payloadReads r.out = [] ∧
      r.out.filter Event.isFileOp = [] :=
  C4_invalid_signature_no_output okEnv badSigImage 0x200 0x100 (by decide)

/-! ## C5: modules that overrun the buffer -/

/-- A module with a valid signature whose `Offset + HeadLen + 4 + Packed1`
exceeds `BIOSLength` without wrapping is rejected: no file is created, no
payload is read, and `Previous` is returned for the walk to continue. -/
theorem PhoenixModule_overrun_exact (env : Env) (m : Mem) (BIOSLength Offset : Nat)
    (hlen : BIOSLength < 4294967296)
    (hsum : Offset + Module.HeadLen m Offset + 4 + Module.Packed1 m Offset < 4294967296)
    (hs : validSignature m Offset = true)
    (hgt : Offset + Module.HeadLen m Offset + 4 + Module.Packed1 m Offset > BIOSLength) :
    PhoenixModule env m BIOSLength Offset =
      .ret ⟨Module.Previous m Offset, [.errOverrun Offset]⟩ :=
  PhoenixModule_overrun env m BIOSLength Offset hs
    ((overrunCheck_exact m BIOSLength Offset hlen hsum).mpr hgt)

/-- C5, evaluated at a failing input.  The module at `0x100` of
`wrapImageSalvage` has a valid signature and `0x100 + HeadLen + 4 + Packed1`
exceeds `BIOSLength = 0x200` over the integers, yet the 32-bit test of line
111 does not fire: the output file is created and `write` is handed the
span of `0xFFFFFFFF` bytes that starts at `0x11F`. -/
theorem C5_overrun_not_rejected :
    validSignature wrapImageSalvage 0x100 = true ∧
    0x100 + Module.HeadLen wrapImageSalvage 0x100 + 4 + Module.Packed1 wrapImageSalvage 0x100
      > 0x200 ∧
    PhoenixModule okEnv wrapImageSalvage 0x200 0x100 =
      .ret ⟨0x180, [.openFile "display_1.rom" true, .errUnsupported "display_1.rom" 3,
        .write "display_1.rom" 0x11F 0xFFFFFFFF]⟩ ∧
    filesCreated [.openFile "display_1.rom" true, .errUnsupported "display_1.rom" 3,
        .write "display_1.rom" 0x11F 0xFFFFFFFF] = ["display_1.rom"] ∧
    payloadReads [.openFile "display_1.rom" true, .errUnsupported "display_1.rom" 3,
        .write "display_1.rom" 0x11F 0xFFFFFFFF] = [(0x11F, 0xFFFFFFFF)] := by
  decide

/-! ## C6: the anchor scan -/

/-- The comparison `strncmp(ID->Name, "BCPSYS", 6) == 0` holds exactly when
the six name bytes are `BCPSYS`. -/
theorem strncmpEq_BCPSYS (m : Mem) (a : Nat) :
    strncmpEq m a BCPSYS = true ↔ namedBCPSYS m a := by
  simp [strncmpEq, namedBCPSYS, readSpan, BCPSYS, and_assoc]

/-- The scan follows the chain: when the records before number `k` are
inside the buffer, start with a non-zero byte and are not named `BCPSYS`,
and record `k` ends the loop (by its address, its first byte or its name),
the loop is left with `ID` at record `k`. -/
theorem scanID_chain (m : Mem) (BIOSLength : Nat) :
    ∀ (k fuel start : Nat), k < fuel →
      (∀ j, j < k → recordAddr m start j < BIOSLength ∧ rd8 m (recordAddr m start j) ≠ 0 ∧
        ¬ namedBCPSYS m (recordAddr m start j)) →
      (recordAddr m start k ≥ BIOSLength ∨ rd8 m (recordAddr m start k) = 0 ∨
        namedBCPSYS m (recordAddr m start k)) →
      scanID m BIOSLength fuel start = some (recordAddr m start k) := by
  intro k
  induction k with
  | zero =>
    intro fuel start hk _ hend
    obtain ⟨f, rfl⟩ : ∃ f, fuel = f + 1 := ⟨fuel - 1, by omega⟩
    simp only [recordAddr] at hend ⊢
    unfold scanID
    by_cases hlive : start < BIOSLength ∧ rd8 m start ≠ 0
    · have hn : namedBCPSYS m start := by
        rcases hend with h | h | h
        · omega
        · exact absurd h hlive.2
        · exact h
      rw [if_pos hlive, if_pos ((strncmpEq_BCPSYS m start).mpr hn)]
    · rw [if_neg hlive]
  | succ k ih =>
    intro fuel start hk hbefore hend
    obtain ⟨f, rfl⟩ : ∃ f, fuel = f + 1 := ⟨fuel - 1, by omega⟩
    have h0 := hbefore 0 (by omega)
    simp only [recordAddr] at h0 hend ⊢
    unfold scanID
    have hnot : ¬ strncmpEq m start BCPSYS = true := fun h =>
      h0.2.2 ((strncmpEq_BCPSYS m start).mp h)
    rw [if_pos ⟨h0.1, h0.2.1⟩, if_neg hnot]
    apply ih f _ (by omega) _ hend
    intro j hj
    have := hbefore (j + 1) (by omega)
    simpa only [recordAddr] using this

/-- C6.  Let record `k` of the chain that starts at `BCPSegmentOffset + 10`
be the first one that is at or past `BIOSLength`, or starts with a zero
byte, or is named `BCPSYS` (each earlier record is inside the buffer, starts
with a non-zero byte and has another name).  If record `k` is inside the
buffer and named `BCPSYS`, the scan selects it: the loop ends with `ID` at
that record, the test of line 208 passes, and `PhoenixExtract` continues
from it.  If record `k` is at or past `BIOSLength` or starts with a zero
byte, `PhoenixExtract` returns `FALSE` and calls `PhoenixModule` for no
module. -/
theorem C6_anchor_scan (fuel : Nat) (envs : Nat → Env) (m : Mem)
    (BIOSLength BIOSOffset Offset1 BCPSegmentOffset k : Nat) (hk : k < fuel)
    (hbefore : ∀ j, j < k →
      recordAddr m (BCPSegmentOffset + 10) j < BIOSLength ∧
      rd8 m (recordAddr m (BCPSegmentOffset + 10) j) ≠ 0 ∧
      ¬ namedBCPSYS m (recordAddr m (BCPSegmentOffset + 10) j)) :
    (recordAddr m (BCPSegmentOffset + 10) k < BIOSLength →
      namedBCPSYS m (recordAddr m (BCPSegmentOffset + 10) k) →
        scanID m BIOSLength fuel (BCPSegmentOffset + 10) =
          some (recordAddr m (BCPSegmentOffset + 10) k) ∧
        ¬ (rd8 m (recordAddr m (BCPSegmentOffset + 10) k) = 0 ∨
          recordAddr m (BCPSegmentOffset + 10) k ≥ BIOSLength) ∧
        PhoenixExtract fuel envs m BIOSLength BIOSOffset Offset1 BCPSegmentOffset =
          afterScan fuel envs m BIOSLength (recordAddr m (BCPSegmentOffset + 10) k)) ∧
    (recordAddr m (BCPSegmentOffset + 10) k ≥ BIOSLength ∨
      rd8 m (recordAddr m (BCPSegmentOffset + 10) k) = 0 →
        PhoenixExtract fuel envs m BIOSLength BIOSOffset Offset1 BCPSegmentOffset =
          .ret ⟨false, [.errLocate], []⟩) := by
  constructor
  · intro hlt hname
    have hscan := scanID_chain m BIOSLength k fuel (BCPSegmentOffset + 10) hk hbefore
      (Or.inr (Or.inr hname))
    have hB : rd8 m (recordAddr m (BCPSegmentOffset + 10) k) = 66 := by
      have h := hname
      simp only [namedBCPSYS, readSpan, BCPSYS, List.cons.injEq] at h
      exact h.1
    refine ⟨hscan, ?_, ?_⟩
    · rintro (h | h)
      · omega
      · omega
    · unfold PhoenixExtract
      rw [hscan]
  · intro hend
    have hscan := scanID_chain m BIOSLength k fuel (BCPSegmentOffset + 10) hk hbefore
      (by rcases hend with h | h
          · exact Or.inl h
          · exact Or.inr (Or.inl h))
    have hcond : rd8 m (recordAddr m (BCPSegmentOffset + 10) k) = 0 ∨
        recordAddr m (BCPSegmentOffset + 10) k ≥ BIOSLength := hend.symm
    simp only [PhoenixExtract, hscan, afterScan, if_pos hcond]

/-- C6 witness: in `chainImage` the record at 10 is `BCPOST`, 32 bytes
long, and record number 1, at 42, is `BCPSYS`; the scan selects it. -/
theorem C6_anchor_scan_witness :
    scanID chainImage 0x200 5 (0 + 10) = some (recordAddr chainImage (0 + 10) 1) ∧
      ¬ (rd8 chainImage (recordAddr chainImage (0 + 10) 1) = 0 ∨
        recordAddr chainImage (0 + 10) 1 ≥ 0x200) ∧
      PhoenixExtract 5 (fun _ => okEnv) chainImage 0x200 0 0 0 =
        afterScan 5 (fun _ => okEnv) chainImage 0x200 (recordAddr chainImage (0 + 10) 1) :=
  (C6_anchor_scan 5 (fun _ => okEnv) chainImage 0x200 0 0 0 1 (by decide) (by decide)).1
    (by decide) (by decide)

/-! ## C7: the walk over a chain of valid modules -/

/-- The walk is over as soon as `Offset` is zero. -/
theorem walk_zero (m : Mem) (BIOSLength fuel : Nat) (envs : Nat → Env) :
    walk m BIOSLength fuel envs 0 = .ret [] := by
  unfold walk
  simp

/-- One iteration of the walk at a non-zero `Offset` where `PhoenixModule`
returns `r`. -/
theorem walk_step (m : Mem) (BIOSLength fuel : Nat) (envs : Nat → Env) (Offset : Nat)
    (r : ModuleResult) (h0 : Offset ≠ 0)
    (hr : PhoenixModule (envs 0) m BIOSLength Offset = .ret r) :
    walk m BIOSLength (fuel + 1) envs Offset =
      match walk m BIOSLength fuel (fun k => envs (k + 1)) (r.ret &&& mask BIOSLength) with
      | .ret vs => .ret ((Offset, r) :: vs)
      | .undef f => .undef f
      | .outOfFuel => .outOfFuel := by
  rw [walk]
  simp only [if_neg h0, hr]

/-- The compression `switch` creates no further file. -/
theorem filesCreated_dispatch (env : Env) (m : Mem) (Offset : Nat) (filename : String) :
    filesCreated (dispatch env m Offset filename) = [] := by
  unfold dispatch
  split_ifs <;> rfl

/-- The walk over a chain of valid modules that stay inside the buffer and
whose files can be created visits the chain in order. -/
theorem walk_chain (m : Mem) (BIOSLength : Nat) (hlen : BIOSLength < 4294967296) :
    ∀ (offs : List Nat) (fuel : Nat) (envs : Nat → Env) (Offset : Nat),
      isChain m BIOSLength Offset offs → offs.length ≤ fuel →
      (∀ o ∈ offs, validSignature m o = true ∧
        o + Module.HeadLen m o + 4 + Module.Packed1 m o ≤ BIOSLength ∧
        ∃ filename, resolveFilename (Module.Type_ m o) (Module.Id m o) = .ret filename ∧
          ∀ k, (envs k).openOk filename = true) →
      ∃ vs, walk m BIOSLength fuel envs Offset = .ret vs ∧ vs.map Prod.fst = offs ∧
        ∀ v ∈ vs, v.2.ret = Module.Previous m v.1 ∧
          ∃ filename, resolveFilename (Module.Type_ m v.1) (Module.Id m v.1) = .ret filename ∧
            filesCreated v.2.out = [filename] := by
  intro offs
  induction offs with
  | nil =>
    intro fuel envs Offset hc _ _
    simp only [isChain] at hc
    subst hc
    exact ⟨[], walk_zero m BIOSLength fuel envs, rfl, by simp⟩
  | cons o rest ih =>
    intro fuel envs Offset hc hfuel hok
    obtain ⟨h0, rfl, hrest⟩ := hc
    obtain ⟨f, rfl⟩ : ∃ f, fuel = f + 1 := ⟨fuel - 1, by simp at hfuel; omega⟩
    obtain ⟨hs, hle, filename, hn, hopen⟩ := hok o (List.mem_cons_self _ _)
    have hmod := PhoenixModule_created (envs 0) m BIOSLength o filename hs
      (overrunCheck_of_le m BIOSLength o hlen hle) hn (hopen 0)
    obtain ⟨vs, hw, hmap, hall⟩ := ih f (fun k => envs (k + 1))
      (Module.Previous m o &&& mask BIOSLength) hrest (by simp at hfuel; omega)
      (fun x hx => by
        obtain ⟨a, b, fn, c, d⟩ := hok x (List.mem_cons_of_mem _ hx)
        exact ⟨a, b, fn, c, fun k => d (k + 1)⟩)
    refine ⟨(o, ⟨Module.Previous m o,
      .openFile filename true :: dispatch (envs 0) m o filename⟩) :: vs, ?_, by simp [hmap], ?_⟩
    · rw [walk_step m BIOSLength f envs o _ h0 hmod]
      simp only [hw]
    · intro v hv
      rcases List.mem_cons.mp hv with rfl | hv
      · exact ⟨rfl, filename, hn, by simp [filesCreated, filesCreated_dispatch]⟩
      · exact hall v hv

/-- C7, counterexample.  `oneModuleImage`, taken with `BIOSLength = 0x1000`,
has a `BCPSYS` record, a non-zero masked anchor and a chain of one module
with a valid signature, no overrun and `Previous & (BIOSLength - 1) = 0`;
when `open` fails, `PhoenixExtract` calls `PhoenixModule` once and returns
`TRUE`, but no output is produced. -/
theorem C7_no_output_when_open_fails :
    namedBCPSYS oneModuleImage 10 ∧
    scanID oneModuleImage 0x1000 3 (0 + 10) = some 10 ∧
    anchorOffset oneModuleImage 0x1000 10 = 0x100 ∧
    isChain oneModuleImage 0x1000 0x100 [0x100] ∧
    validSignature oneModuleImage 0x100 = true ∧
    0x100 + Module.HeadLen oneModuleImage 0x100 + 4 + Module.Packed1 oneModuleImage 0x100
      ≤ 0x1000 ∧
    PhoenixExtract 3 (fun _ => roEnv) oneModuleImage 0x1000 0 0 0 =
      .ret ⟨true, [], [(0x100, ⟨0, [.openFile "acpi_2.rom" false, .errOpen "acpi_2.rom"]⟩)]⟩ ∧
    filesCreated [.openFile "acpi_2.rom" false, .errOpen "acpi_2.rom"] = [] := by
  decide

/-- C7, amended.  For an image in which the scan finds a `BCPSYS` record
inside the buffer, whose backward chain from the masked anchor consists of
the modules at `offs` (the last one having `Previous & (BIOSLength - 1) = 0`),
each with a valid signature, no overrun and an output file whose name is
resolved and whose creation succeeds: `PhoenixExtract` returns `TRUE` after
calling `PhoenixModule` exactly once per module, in chain order from the
anchor offset, and each call creates exactly one output file, the one named
after the module's `Type` and `Id`. -/
theorem C7_walk_visits_chain (fuel : Nat) (envs : Nat → Env) (m : Mem)
    (BIOSLength BIOSOffset Offset1 BCPSegmentOffset ID : Nat) (offs : List Nat)
    (hlen : BIOSLength < 4294967296)
    (hscan : scanID m BIOSLength fuel (BCPSegmentOffset + 10) = some ID)
    (hname : namedBCPSYS m ID) (hin : ID < BIOSLength)
    (hanchor : anchorOffset m BIOSLength ID ≠ 0)
    (hchain : isChain m BIOSLength (anchorOffset m BIOSLength ID) offs)
    (hfuel : offs.length ≤ fuel)
    (hok : ∀ o ∈ offs, validSignature m o = true ∧
      o + Module.HeadLen m o + 4 + Module.Packed1 m o ≤ BIOSLength ∧
      ∃ filename, resolveFilename (Module.Type_ m o) (Module.Id m o) = .ret filename ∧
        ∀ k, (envs k).openOk filename = true) :
    ∃ vs, PhoenixExtract fuel envs m BIOSLength BIOSOffset Offset1 BCPSegmentOffset =
        .ret ⟨true, [], vs⟩ ∧
      vs.map Prod.fst = offs ∧ vs.length = offs.length ∧
      ∀ v ∈ vs, v.2.ret = Module.Previous m v.1 ∧
        ∃ filename, resolveFilename (Module.Type_ m v.1) (Module.Id m v.1) = .ret filename ∧
          filesCreated v.2.out = [filename] := by
  obtain ⟨vs, hw, hmap, hall⟩ := walk_chain m BIOSLength hlen offs fuel envs
    (anchorOffset m BIOSLength ID) hchain hfuel hok
  have hB : rd8 m ID = 66 := by
    have h := hname
    simp only [namedBCPSYS, readSpan, BCPSYS, List.cons.injEq] at h
    exact h.1
  have h1 : ¬ (rd8 m ID = 0 ∨ ID ≥ BIOSLength) := by
    rintro (h | h)
    · omega
    · omega
  refine ⟨vs, ?_, hmap, ?_, hall⟩
  · simp only [PhoenixExtract, hscan, afterScan, if_neg h1, if_neg hanchor, hw]
  · rw [← hmap, List.length_map]

/-- C7 witness: the chain of three modules of `chainImage`. -/
theorem C7_walk_visits_chain_witness :
    ∃ vs, PhoenixExtract 5 (fun _ => okEnv) chainImage 0x200 0 0 0 = .ret ⟨true, [], vs⟩ ∧
      vs.map Prod.fst = [0x100, 0x180, 0xC0] ∧ vs.length = [0x100, 0x180, 0xC0].length ∧
      ∀ v ∈ vs, v.2.ret = Module.Previous chainImage v.1 ∧
        ∃ filename, resolveFilename (Module.Type_ chainImage v.1) (Module.Id chainImage v.1) =
            .ret filename ∧
          filesCreated v.2.out = [filename] :=
  C7_walk_visits_chain 5 (fun _ => okEnv) chainImage 0x200 0 0 0 42 [0x100, 0x180, 0xC0]
    (by decide) (by decide) (by decide) (by decide) (by decide) (by decide) (by decide)
    (by
      intro o ho
      simp only [List.mem_cons, List.mem_singleton, List.not_mem_nil, or_false] at ho
      rcases ho with rfl | rfl | rfl
      · exact ⟨by decide, by decide, "acpi_2.rom", by decide, fun _ => rfl⟩
      · exact ⟨by decide, by decide, "display_1.rom", by decide, fun _ => rfl⟩
      · exact ⟨by decide, by decide, "logo_0.rom", by decide, fun _ => rfl⟩)

/-! ## C8: masking of raw offsets -/

/-- For a power of two that fits 32 bits the mask is `2 ^ k - 1`. -/
theorem mask_two_pow (k : Nat) (hk : k ≤ 32) : mask (2 ^ k) = 2 ^ k - 1 := by
  have h1 : 2 ^ k ≤ 2 ^ 32 := Nat.pow_le_pow_right (by decide) hk
  have h0 : 0 < 2 ^ k := Nat.two_pow_pos k
  exact mask_eq_pred (2 ^ k) h0 (by simpa using h1)

/-- Masking a raw value with `BIOSLength - 1` is reduction modulo
`BIOSLength`. -/
theorem land_mask_two_pow (k : Nat) (hk : k ≤ 32) (v : Nat) :
    v &&& mask (2 ^ k) = v % 2 ^ k := by
  rw [mask_two_pow k hk, Nat.and_pow_two_sub_one_eq_mod]

/-- Adding `BIOSLength` to a raw 32-bit value does not change its masked
value. -/
theorem land_mask_add (k : Nat) (hk : k ≤ 32) (v : Nat) :
    ((v + 2 ^ k) % 4294967296) &&& mask (2 ^ k) = v &&& mask (2 ^ k) := by
  rw [land_mask_two_pow k hk, land_mask_two_pow k hk]
  have hdvd : 2 ^ k ∣ 4294967296 := by
    have : (4294967296 : Nat) = 2 ^ 32 := by norm_num
    rw [this]
    exact Nat.pow_dvd_pow 2 hk
  rw [Nat.mod_mod_of_dvd _ hdvd, Nat.add_mod_right]

/-- A span depends only on the bytes inside it. -/
theorem readSpan_congr (m m' : Mem) :
    ∀ (n a : Nat), (∀ x, a ≤ x → x < a + n → rd8 m x = rd8 m' x) →
      readSpan m a n = readSpan m' a n := by
  intro n
  induction n with
  | zero => intro a _; rfl
  | succ n ih =>
    intro a h
    simp only [readSpan]
    rw [h a (le_refl _) (by omega), ih (a + 1) (fun x h1 h2 => h x (by omega) (by omega))]

/-- A 32-bit field depends only on its four bytes. -/
theorem le32_congr (m m' : Mem) (a : Nat)
    (h : ∀ x, a ≤ x → x < a + 4 → rd8 m x = rd8 m' x) : le32 m a = le32 m' a := by
  unfold le32
  rw [h a (by omega) (by omega), h (a + 1) (by omega) (by omega),
    h (a + 2) (by omega) (by omega), h (a + 3) (by omega) (by omega)]

/-- The fields of a header other than `Previous` depend on the bytes
`[Offset + 4, Offset + 24)` only. -/
theorem header_congr (env : Env) (m m' : Mem) (BIOSLength o : Nat)
    (h : ∀ x, o + 4 ≤ x → x < o + 24 → rd8 m x = rd8 m' x) :
    validSignature m o = validSignature m' o ∧
    overrunCheck m BIOSLength o = overrunCheck m' BIOSLength o ∧
    Module.Type_ m o = Module.Type_ m' o ∧ Module.Id m o = Module.Id m' o ∧
    ∀ filename, dispatch env m o filename = dispatch env m' o filename := by
  have hH : Module.HeadLen m o = Module.HeadLen m' o := by
    unfold Module.HeadLen
    exact h _ (by omega) (by omega)
  have hC : Module.Compression m o = Module.Compression m' o := by
    unfold Module.Compression
    exact h _ (by omega) (by omega)
  have hE : Module.ExpLen1 m o = Module.ExpLen1 m' o := by
    unfold Module.ExpLen1
    exact le32_congr m m' _ (fun x h1 h2 => h x (by omega) (by omega))
  have hP : Module.Packed1 m o = Module.Packed1 m' o := by
    unfold Module.Packed1
    exact le32_congr m m' _ (fun x h1 h2 => h x (by omega) (by omega))
  refine ⟨?_, ?_, ?_, ?_, ?_⟩
  · unfold validSignature Module.Signature
    rw [h (o + 4 + 0) (by omega) (by omega), h (o + 4 + 1) (by omega) (by omega),
      h (o + 4 + 2) (by omega) (by omega)]
  · unfold overrunCheck
    rw [hH, hP]
  · unfold Module.Type_
    exact h _ (by omega) (by omega)
  · unfold Module.Id
    exact h _ (by omega) (by omega)
  · intro filename
    unfold dispatch
    rw [hH, hC, hE, hP]

/-- Two memories that agree on `[Offset + 4, Offset + 24)` and whose
`Previous` fields are congruent modulo `n` make `PhoenixModule` do the same
and return congruent values. -/
theorem PhoenixModule_congr_mod (env : Env) (m m' : Mem) (BIOSLength o n : Nat)
    (h : ∀ x, o + 4 ≤ x → x < o + 24 → rd8 m x = rd8 m' x)
    (hp : Module.Previous m' o % n = Module.Previous m o % n)
    (r : ModuleResult) (hr : PhoenixModule env m BIOSLength o = .ret r) :
    ∃ r', PhoenixModule env m' BIOSLength o = .ret r' ∧ r'.out = r.out ∧
      r'.ret % n = r.ret % n := by
  obtain ⟨hS, hO, hT, hI, hD⟩ := header_congr env m m' BIOSLength o h
  cases hs : validSignature m o with
  | false =>
    rw [PhoenixModule_invalid env m BIOSLength o hs] at hr
    simp only [Run.ret.injEq] at hr
    subst hr
    exact ⟨_, PhoenixModule_invalid env m' BIOSLength o (hS ▸ hs), rfl, rfl⟩
  | true =>
    cases ho : overrunCheck m BIOSLength o with
    | true =>
      rw [PhoenixModule_overrun env m BIOSLength o hs ho] at hr
      simp only [Run.ret.injEq] at hr
      subst hr
      exact ⟨_, PhoenixModule_overrun env m' BIOSLength o (hS ▸ hs) (hO ▸ ho), rfl, hp⟩
    | false =>
      cases hn : resolveFilename (Module.Type_ m o) (Module.Id m o) with
      | undef f =>
        rw [PhoenixModule_undef env m BIOSLength o f hs ho hn] at hr
        exact absurd hr (by simp)
      | outOfFuel => exact absurd hn (resolveFilename_ne_outOfFuel _ _)
      | ret filename =>
        have hn' : resolveFilename (Module.Type_ m' o) (Module.Id m' o) = .ret filename := by
          rw [← hT, ← hI]
          exact hn
        cases hf : env.openOk filename with
        | false =>
          rw [PhoenixModule_open_failed env m BIOSLength o filename hs ho hn hf] at hr
          simp only [Run.ret.injEq] at hr
          subst hr
          exact ⟨_, PhoenixModule_open_failed env m' BIOSLength o filename (hS ▸ hs)
            (hO ▸ ho) hn' hf, rfl, hp⟩
        | true =>
          rw [PhoenixModule_created env m BIOSLength o filename hs ho hn hf] at hr
          simp only [Run.ret.injEq] at hr
          subst hr
          exact ⟨_, PhoenixModule_created env m' BIOSLength o filename (hS ▸ hs)
            (hO ▸ ho) hn' hf, by simp [hD], hp⟩

/-- A walk that returns from a non-zero `Offset` made a call of
`PhoenixModule` that returned, and continued from the masked value. -/
theorem walk_ret_inv (m : Mem) (BIOSLength fuel : Nat) (envs : Nat → Env) (o : Nat)
    (vs : List Visit) (h0 : o ≠ 0) (h : walk m BIOSLength fuel envs o = .ret vs) :
    ∃ f r vs0, fuel = f + 1 ∧ PhoenixModule (envs 0) m BIOSLength o = .ret r ∧
      walk m BIOSLength f (fun k => envs (k + 1)) (r.ret &&& mask BIOSLength) = .ret vs0 ∧
      vs = (o, r) :: vs0 := by
  cases fuel with
  | zero =>
    rw [walk] at h
    simp [h0] at h
  | succ f =>
    rw [walk] at h
    simp only [if_neg h0] at h
    cases hpm : PhoenixModule (envs 0) m BIOSLength o with
    | undef e => simp [hpm] at h
    | outOfFuel => simp [hpm] at h
    | ret r =>
      simp only [hpm] at h
      cases hw : walk m BIOSLength f (fun k => envs (k + 1)) (r.ret &&& mask BIOSLength) with
      | undef e => simp [hw] at h
      | outOfFuel => simp [hw] at h
      | ret vs0 =>
        simp only [hw, Run.ret.injEq] at h
        exact ⟨f, r, vs0, rfl, rfl, hw, h.symm⟩

/-- Two memories that differ only in the four bytes at `d`, where they
hold raw values congruent modulo `BIOSLength = 2 ^ k`, give the same walk,
provided every visited header either starts at `d` (the field is its
`Previous`) or does not overlap `[d, d + 4)`. -/
theorem walk_congr (m m' : Mem) (k d : Nat) (hk : k ≤ 32) (hag : agreeOutside m m' d)
    (hd : le32 m' d % 2 ^ k = le32 m d % 2 ^ k) :
    ∀ (fuel : Nat) (envs : Nat → Env) (o : Nat) (vs : List Visit),
      walk m (2 ^ k) fuel envs o = .ret vs →
      (∀ v ∈ vs, v.1 = d ∨ v.1 + 24 ≤ d ∨ d + 4 ≤ v.1) →
      ∃ vs', walk m' (2 ^ k) fuel envs o = .ret vs' ∧ traceOf vs' = traceOf vs := by
  intro fuel
  induction fuel with
  | zero =>
    intro envs o vs hw _
    by_cases h0 : o = 0
    · subst h0
      rw [walk_zero] at hw
      simp only [Run.ret.injEq] at hw
      subst hw
      exact ⟨[], walk_zero m' _ _ envs, rfl⟩
    · obtain ⟨f, _, _, hf, _⟩ := walk_ret_inv m _ 0 envs o vs h0 hw
      omega
  | succ f ih =>
    intro envs o vs hw hvis
    by_cases h0 : o = 0
    · subst h0
      rw [walk_zero] at hw
      simp only [Run.ret.injEq] at hw
      subst hw
      exact ⟨[], walk_zero m' _ _ envs, rfl⟩
    · obtain ⟨f', r, vs0, hf, hpm, hw0, rfl⟩ := walk_ret_inv m _ (f + 1) envs o vs h0 hw
      have hff : f = f' := by omega
      subst hff
      have hpos := hvis (o, r) (List.mem_cons_self _ _)
      simp only at hpos
      have hbytes : ∀ x, o + 4 ≤ x → x < o + 24 → rd8 m x = rd8 m' x := by
        intro x h1 h2
        apply hag
        omega
      have hprev : Module.Previous m' o % 2 ^ k = Module.Previous m o % 2 ^ k := by
        unfold Module.Previous
        rcases hpos with h | h | h
        · rw [h]
          exact hd
        · rw [le32_congr m m' o (fun x _ _ => hag x (by omega))]
        · rw [le32_congr m m' o (fun x _ _ => hag x (by omega))]
      obtain ⟨r', hpm', hout, hret⟩ :=
        PhoenixModule_congr_mod (envs 0) m m' (2 ^ k) o (2 ^ k) hbytes hprev r hpm
      have hnext : r'.ret &&& mask (2 ^ k) = r.ret &&& mask (2 ^ k) := by
        rw [land_mask_two_pow k hk, land_mask_two_pow k hk, hret]
      obtain ⟨vs0', hw0', htr⟩ := ih (fun k => envs (k + 1)) _ vs0 hw0
        (fun v hv => hvis v (List.mem_cons_of_mem _ hv))
      refine ⟨(o, r') :: vs0', ?_, ?_⟩
      · rw [walk_step m' (2 ^ k) f envs o r' h0 hpm', hnext, hw0']
      · simp only [traceOf, List.map_cons, hout] at htr ⊢
        rw [htr]

/-- The scan never moves backwards. -/
theorem scanID_ge (m : Mem) (BIOSLength : Nat) :
    ∀ (fuel start ID : Nat), scanID m BIOSLength fuel start = some ID → start ≤ ID := by
  intro fuel
  induction fuel with
  | zero => intro start ID h; simp [scanID] at h
  | succ f ih =>
    intro start ID h
    unfold scanID at h
    split at h
    · split at h
      · simp only [Option.some.injEq] at h
        omega
      · have := ih _ _ h
        omega
    · simp only [Option.some.injEq] at h
      omega

/-- The scan depends only on the bytes below the end of the ten-byte
header of the record it stops at. -/
theorem scanID_congr (m m' : Mem) (BIOSLength : Nat) :
    ∀ (fuel start ID : Nat), scanID m BIOSLength fuel start = some ID →
      (∀ x, x < ID + 10 → rd8 m x = rd8 m' x) →
      scanID m' BIOSLength fuel start = some ID := by
  intro fuel
  induction fuel with
  | zero => intro start ID h; simp [scanID] at h
  | succ f ih =>
    intro start ID h hag
    have hge := scanID_ge m BIOSLength (f + 1) start ID h
    have h0 : rd8 m start = rd8 m' start := hag _ (by omega)
    have hcmp : strncmpEq m start BCPSYS = strncmpEq m' start BCPSYS := by
      simp only [strncmpEq, BCPSYS]
      rw [hag start (by omega), hag (start + 1) (by omega), hag (start + 1 + 1) (by omega),
        hag (start + 1 + 1 + 1) (by omega), hag (start + 1 + 1 + 1 + 1) (by omega),
        hag (start + 1 + 1 + 1 + 1 + 1) (by omega)]
    have hlen : le16 m (start + 8) = le16 m' (start + 8) := by
      unfold le16
      rw [hag (start + 8) (by omega), hag (start + 8 + 1) (by omega)]
    unfold scanID at h ⊢
    rw [← h0, ← hcmp, ← hlen]
    by_cases hc : start < BIOSLength ∧ rd8 m start ≠ 0
    · rw [if_pos hc] at h ⊢
      by_cases hb : strncmpEq m start BCPSYS = true
      · rw [if_pos hb] at h ⊢
        exact h
      · rw [if_neg hb] at h ⊢
        exact ih _ _ h hag
    · rw [if_neg hc] at h ⊢
      exact h

/-- Overwriting four bytes at `d` changes nothing outside `[d, d + 4)`. -/
theorem agreeOutside_poke (m : Mem) (d : Nat) (bs : List Nat) (h : bs.length = 4) :
    agreeOutside m (poke m d bs) d := by
  intro a ha
  have hn : ¬ (d ≤ a ∧ a < d + bs.length) := by omega
  simp only [rd8, poke, if_neg hn]

/-- A raw 32-bit value and the value `BIOSLength` further are congruent
modulo `BIOSLength`. -/
theorem raw_add_mod (k : Nat) (hk : k ≤ 32) (v : Nat) :
    (v + 2 ^ k) % 4294967296 % 2 ^ k = v % 2 ^ k := by
  have h := land_mask_add k hk v
  rwa [land_mask_two_pow k hk, land_mask_two_pow k hk] at h

/-- An event whose payload span avoids `[d, d + 4)` puts the same bytes
into its file in both memories. -/
theorem fileBytes_congr (env : Env) (m m' : Mem) (d : Nat) (hag : agreeOutside m m' d)
    (e : Event) (s n : Nat) (hp : e.payloadRead = some (s, n))
    (hdis : s + n ≤ d ∨ d + 4 ≤ s) :
    Event.fileBytes env m e = Event.fileBytes env m' e := by
  cases e with
  | decode filename src Packed ExpLen =>
    simp only [Event.payloadRead, Option.some.injEq, Prod.mk.injEq] at hp
    obtain ⟨rfl, rfl⟩ := hp
    simp only [Event.fileBytes]
    rw [readSpan_congr m m' Packed src (fun x h1 h2 => hag x (by omega))]
  | write filename src count =>
    simp only [Event.payloadRead, Option.some.injEq, Prod.mk.injEq] at hp
    obtain ⟨rfl, rfl⟩ := hp
    simp only [Event.fileBytes]
    rw [readSpan_congr m m' count src (fun x h1 h2 => hag x (by omega))]
  | _ => simp [Event.payloadRead] at hp

/-- C8, counterexample.  The images `aliasImage 0x78` and `aliasImage 0x278`
differ only in the anchor field at 129 to 132, whose raw value is `0x78` in
one and `0x78 + BIOSLength` in the other.  Both walks visit `0x78`, but byte
130 of the field is also the `Compression` byte of that module: one image
has it copied as uncompressed from `0xF0`, the other has it reported as
unsupported and copied from `0xF4`, and the files receive different
bytes. -/
theorem C8_aliased_anchor_field :
    (∀ a, a < 129 ∨ 133 ≤ a → aliasImage 0x78 a = aliasImage 0x278 a) ∧
    scanID (aliasImage 0x78) 0x200 3 (0 + 10) = some 10 ∧
    scanID (aliasImage 0x278) 0x200 3 (0 + 10) = some 10 ∧
    le32 (aliasImage 0x78) (10 + 0x77) = 0x78 ∧
    le32 (aliasImage 0x278) (10 + 0x77) = (0x78 + 0x200) % 4294967296 ∧
    PhoenixExtract 3 (fun _ => okEnv) (aliasImage 0x78) 0x200 0 0 0 =
      .ret ⟨true, [], [(0x78, ⟨0, [.openFile "display_1.rom" true,
        .write "display_1.rom" 0xF0 1]⟩)]⟩ ∧
    PhoenixExtract 3 (fun _ => okEnv) (aliasImage 0x278) 0x200 0 0 0 =
      .ret ⟨true, [], [(0x78, ⟨0, [.openFile "display_1.rom" true,
        .errUnsupported "display_1.rom" 2, .write "display_1.rom" 0xF4 1]⟩)]⟩ ∧
    Event.fileBytes okEnv (aliasImage 0x78) (.write "display_1.rom" 0xF0 1) =
      some ("display_1.rom", [0xA0]) ∧
    Event.fileBytes okEnv (aliasImage 0x278) (.write "display_1.rom" 0xF4 1) =
      some ("display_1.rom", [0xA4]) := by
  refine ⟨?_, by decide, by decide, by decide, by decide, by decide, by decide, by decide,
    by decide⟩
  intro a h
  have hn : ¬ (10 + 0x77 ≤ a ∧ a < 10 + 0x77 + 4) := by omega
  simp only [aliasImage, poke, bytes32, List.length_cons, List.length_nil]
  by_cases h240 : 240 ≤ a ∧ a < 240 + (0 + 1 + 1 + 1 + 1 + 1 + 1)
  · rw [if_pos h240, if_pos h240]
  · rw [if_neg h240, if_neg h240, if_neg hn, if_neg hn]

/-- C8, amended.  For `BIOSLength = 2 ^ k`, masking a raw 32-bit value `v`
with `BIOSLength - 1` gives `v mod BIOSLength`, so `v` and
`v + BIOSLength` (modulo `2 ^ 32`) give the same next position.
Consequently, for two images that differ only in the four bytes at `d` of
one raw value, `v` in one and `v + BIOSLength` in the other, and a walk in
which every visited header either starts at `d` (the raw value is its
`Previous`) or does not overlap those bytes: when `d` is the anchor field,
`PhoenixExtract` returns the same result after the same visits, with the
same diagnostics and file operations; the walk from any offset does so when
`d` is the `Previous` field of a module; and every file operation whose
payload span does not overlap those bytes puts the same bytes into its
file. -/
theorem C8_mask_invariance (k : Nat) (hk : k ≤ 32) :
    (∀ v, v &&& mask (2 ^ k) = v % 2 ^ k) ∧
    (∀ v, ((v + 2 ^ k) % 4294967296) &&& mask (2 ^ k) = v &&& mask (2 ^ k)) ∧
    (∀ (m m' : Mem) (d : Nat), agreeOutside m m' d →
      le32 m' d = (le32 m d + 2 ^ k) % 4294967296 →
      (∀ (fuel : Nat) (envs : Nat → Env) (BIOSOffset Offset1 BCPSegmentOffset ID : Nat)
          (r : ExtractResult),
        scanID m (2 ^ k) fuel (BCPSegmentOffset + 10) = some ID → d = ID + 0x77 →
        PhoenixExtract fuel envs m (2 ^ k) BIOSOffset Offset1 BCPSegmentOffset = .ret r →
        (∀ v ∈ r.visits, v.1 = d ∨ v.1 + 24 ≤ d ∨ d + 4 ≤ v.1) →
        ∃ r', PhoenixExtract fuel envs m' (2 ^ k) BIOSOffset Offset1 BCPSegmentOffset = .ret r' ∧
          r'.ret = r.ret ∧ r'.diag = r.diag ∧ traceOf r'.visits = traceOf r.visits) ∧
      (∀ (fuel : Nat) (envs : Nat → Env) (o : Nat) (vs : List Visit),
        walk m (2 ^ k) fuel envs o = .ret vs →
        (∀ v ∈ vs, v.1 = d ∨ v.1 + 24 ≤ d ∨ d + 4 ≤ v.1) →
        ∃ vs', walk m' (2 ^ k) fuel envs o = .ret vs' ∧ traceOf vs' = traceOf vs) ∧
      (∀ (env : Env) (e : Event) (s n : Nat), e.payloadRead = some (s, n) →
        (s + n ≤ d ∨ d + 4 ≤ s) →
        Event.fileBytes env m e = Event.fileBytes env m' e)) := by
  refine ⟨land_mask_two_pow k hk, land_mask_add k hk, ?_⟩
  intro m m' d hag hraw
  have hd : le32 m' d % 2 ^ k = le32 m d % 2 ^ k := by
    rw [hraw, raw_add_mod k hk]
  refine ⟨?_, walk_congr m m' k d hk hag hd, fun env e s n hp hdis =>
    fileBytes_congr env m m' d hag e s n hp hdis⟩
  intro fuel envs BIOSOffset Offset1 BCPSegmentOffset ID r hscan hdID hPE hvis
  have hscan' := scanID_congr m m' (2 ^ k) fuel _ ID hscan
    (fun x hx => hag x (Or.inl (by omega)))
  have hID : rd8 m' ID = rd8 m ID := (hag ID (Or.inl (by omega))).symm
  have hanch : anchorOffset m' (2 ^ k) ID = anchorOffset m (2 ^ k) ID := by
    unfold anchorOffset
    rw [← hdID, hraw, land_mask_add k hk]
  simp only [PhoenixExtract, hscan, hscan', afterScan, hID, hanch] at hPE ⊢
  by_cases h1 : rd8 m ID = 0 ∨ ID ≥ 2 ^ k
  · rw [if_pos h1] at hPE ⊢
    exact ⟨r, hPE, rfl, rfl, rfl⟩
  · rw [if_neg h1] at hPE ⊢
    by_cases h2 : anchorOffset m (2 ^ k) ID = 0
    · rw [if_pos h2] at hPE ⊢
      exact ⟨r, hPE, rfl, rfl, rfl⟩
    · rw [if_neg h2] at hPE ⊢
      cases hw : walk m (2 ^ k) fuel envs (anchorOffset m (2 ^ k) ID) with
      | undef f => simp [hw] at hPE
      | outOfFuel => simp [hw] at hPE
      | ret vs =>
        simp only [hw, Run.ret.injEq] at hPE
        subst hPE
        obtain ⟨vs', hw', htr⟩ := walk_congr m m' k d hk hag hd fuel envs _ vs hw hvis
        rw [hw']
        exact ⟨_, rfl, rfl, rfl, htr⟩

/-- C8 witness: `chainImage` and `chainImageShifted`, whose anchor fields
hold `0x100` and `0x300`, with `BIOSLength = 2 ^ 9`. -/
theorem C8_mask_invariance_witness :
    ∃ r', PhoenixExtract 5 (fun _ => okEnv) chainImageShifted (2 ^ 9) 0 0 0 = .ret r' ∧
      r'.ret = true ∧ r'.diag = [] ∧
      traceOf r'.visits =
        traceOf [(0x100, ⟨0x380, [.openFile "acpi_2.rom" true, .write "acpi_2.rom" 283 4]⟩),
          (0x180, ⟨0xC0, [.openFile "display_1.rom" true, .decode "display_1.rom" 415 4 8]⟩),
          (0xC0, ⟨0x200, [.openFile "logo_0.rom" true, .errUnsupported "logo_0.rom" 3,
            .write "logo_0.rom" 223 2]⟩)] :=
  ((C8_mask_invariance 9 (by decide)).2.2 chainImage chainImageShifted (42 + 0x77)
      (agreeOutside_poke chainImage (42 + 0x77) (bytes32 0x300) rfl) (by decide)).1
    5 (fun _ => okEnv) 0 0 0 42
    ⟨true, [], [(0x100, ⟨0x380, [.openFile "acpi_2.rom" true, .write "acpi_2.rom" 283 4]⟩),
      (0x180, ⟨0xC0, [.openFile "display_1.rom" true, .decode "display_1.rom" 415 4 8]⟩),
      (0xC0, ⟨0x200, [.openFile "logo_0.rom" true, .errUnsupported "logo_0.rom" 3,
        .write "logo_0.rom" 223 2]⟩)]⟩
    (by decide) (by decide) (by decide) (by decide)

/-! ## C9: the name of the output file -/

/-- Every element of `PhoenixModuleNames` is found under its own `Id`. -/
theorem PhoenixModuleNameGet_registered :
    ∀ e ∈ PhoenixModuleNames, PhoenixModuleNameGet e.1 = .ret e.2 := by
  decide

/-- For a registered `Type` the output is the registered name, `_`, the
decimal `Id` and `.rom`. -/
theorem resolveFilename_registered (Ty Id : Nat) (name : String)
    (h : (Ty, some name) ∈ PhoenixModuleNames) :
    resolveFilename Ty Id = .ret (name ++ "_" ++ dec Id ++ ".rom") := by
  have := PhoenixModuleNameGet_registered (Ty, some name) h
  simp only [resolveFilename, this, nameRom]

/-- The loop over elements none of which has a `NULL` name or the `Id`
looked for runs off the end of the array. -/
theorem nameLoop_overrun (Id : Nat) :
    ∀ tbl : List (Nat × Option String),
      (∀ e ∈ tbl, e.1 ≠ Id ∧ e.2 ≠ none) → nameLoop Id tbl = .undef .tableOverrun := by
  intro tbl
  induction tbl with
  | nil => intro _; rfl
  | cons e rest ih =>
    intro h
    obtain ⟨c, name⟩ := e
    have he := h (c, name) (List.mem_cons_self _ _)
    cases name with
    | none => exact absurd rfl he.2
    | some n =>
      simp only [nameLoop, if_neg he.1]
      exact ih (fun x hx => h x (List.mem_cons_of_mem _ hx))

/-- No element of `PhoenixModuleNames` has a `NULL` name: the array has no
terminating element. -/
theorem PhoenixModuleNames_no_terminator : ∀ e ∈ PhoenixModuleNames, e.2 ≠ none := by
  decide

/-- For a `Type` that is not registered the lookup reads past the end of
`PhoenixModuleNames`. -/
theorem resolveFilename_unregistered (Ty Id : Nat)
    (h : ∀ e ∈ PhoenixModuleNames, e.1 ≠ Ty) :
    resolveFilename Ty Id = .undef .tableOverrun := by
  have := nameLoop_overrun Ty PhoenixModuleNames
    (fun e he => ⟨h e he, PhoenixModuleNames_no_terminator e he⟩)
  simp only [resolveFilename, PhoenixModuleNameGet, this]

/-- C9, evaluated at a failing input.  `Type = 'A'`, `Id = 2` resolves to
`acpi_2.rom`, and the `else` branch would format `7E_2.rom`; but for
`Type = 0x7E`, `Id = 2` the loop of `PhoenixModuleNameGet` compares all 26
elements, none of which has a `NULL` name, and goes on to read
`PhoenixModuleNames[26]`, past the end of the array, so that neither the
lookup nor `PhoenixModule` yields the hexadecimal name. -/
theorem C9_unregistered_type_reads_past_table :
    resolveFilename 65 2 = .ret "acpi_2.rom" ∧
    hexRom 0x7E 2 = "7E_2.rom" ∧
    PhoenixModuleNames.length = 26 ∧
    PhoenixModuleNameGet 0x7E = .undef .tableOverrun ∧
    resolveFilename 0x7E 2 = .undef .tableOverrun ∧
    Module.Type_ hexImage 0x100 = 0x7E ∧ Module.Id hexImage 0x100 = 2 ∧
    PhoenixModule okEnv hexImage 0x1000 0x100 = .undef .tableOverrun := by
  decide

/-! ## C10: the uncompressed copy -/

/-- A span of `n` bytes has `n` elements. -/
theorem readSpan_length (m : Mem) : ∀ (n a : Nat), (readSpan m a n).length = n := by
  intro n
  induction n with
  | zero => intro a; rfl
  | succ n ih => intro a; simp [readSpan, ih]

/-- Element `i` of a span is the byte at its start plus `i`. -/
theorem readSpan_getElem (m : Mem) :
    ∀ (n a i : Nat), i < n → (readSpan m a n)[i]? = some (rd8 m (a + i)) := by
  intro n
  induction n with
  | zero => intro a i h; omega
  | succ n ih =>
    intro a i h
    cases i with
    | zero => simp [readSpan]
    | succ i =>
      simp only [readSpan, List.getElem?_cons_succ]
      rw [ih (a + 1) i (by omega)]
      congr 2
      omega

/-- C10.  For a module with a valid signature that passes the test of line
111 (no overrun), whose output file `filename` is created and whose
`Compression` is 0, `PhoenixModule` performs exactly one `write`, of the
span `[Offset + HeadLen, Offset + HeadLen + Packed1)`: the file receives
`Packed1` bytes, byte `i` being the image byte at `Offset + HeadLen + i`. -/
theorem C10_uncompressed_copy (env : Env) (m : Mem) (BIOSLength Offset : Nat)
    (filename : String)
    (hs : validSignature m Offset = true) (ho : overrunCheck m BIOSLength Offset = false)
    (hn : resolveFilename (Module.Type_ m Offset) (Module.Id m Offset) = .ret filename)
    (hf : env.openOk filename = true) (hc : Module.Compression m Offset = 0) :
    PhoenixModule env m BIOSLength Offset =
      .ret ⟨Module.Previous m Offset, [.openFile filename true,
        .write filename (Offset + Module.HeadLen m Offset) (Module.Packed1 m Offset)]⟩ ∧
    ∃ bytes,
      Event.fileBytes env m
        (.write filename (Offset + Module.HeadLen m Offset) (Module.Packed1 m Offset)) =
          some (filename, bytes) ∧
      bytes.length = Module.Packed1 m Offset ∧
      ∀ i, i < Module.Packed1 m Offset →
        bytes[i]? = some (rd8 m (Offset + Module.HeadLen m Offset + i)) := by
  refine ⟨?_, _, rfl, readSpan_length m _ _, fun i hi => readSpan_getElem m _ _ i hi⟩
  rw [PhoenixModule_created env m BIOSLength Offset filename hs ho hn hf]
  simp [dispatch, hc]

/-- C10 witness: the module of `oneModuleImage`, whose payload bytes are
`DE AD BE EF` at `0x11B`. -/
theorem C10_uncompressed_copy_witness :
    PhoenixModule okEnv oneModuleImage 0x200 0x100 =
      .ret ⟨Module.Previous oneModuleImage 0x100, [.openFile "acpi_2.rom" true,
        .write "acpi_2.rom" (0x100 + Module.HeadLen oneModuleImage 0x100)
          (Module.Packed1 oneModuleImage 0x100)]⟩ ∧
    ∃ bytes,
      Event.fileBytes okEnv oneModuleImage
        (.write "acpi_2.rom" (0x100 + Module.HeadLen oneModuleImage 0x100)
          (Module.Packed1 oneModuleImage 0x100)) = some ("acpi_2.rom", bytes) ∧
      bytes.length = Module.Packed1 oneModuleImage 0x100 ∧
      ∀ i, i < Module.Packed1 oneModuleImage 0x100 →
        bytes[i]? = some (rd8 oneModuleImage (0x100 + Module.HeadLen oneModuleImage 0x100 + i)) :=
  C10_uncompressed_copy okEnv oneModuleImage 0x200 0x100 "acpi_2.rom"
    (by decide) (by decide) (by decide) (by decide) (by decide)

/-! ## C11: the LH5 branch -/

/-- C11, counterexample.  The module at `0x180` of `chainImage` has a valid
signature, no overrun and `Compression = 5`; when `MMapOutputFile` returns
`NULL` the `switch` is left at once, and when `open` fails the `switch` is
not reached: in both cases the decoder is not called and no byte is put
into the output. -/
theorem C11_no_decode_without_buffer :
    validSignature chainImage 0x180 = true ∧
    0x180 + Module.HeadLen chainImage 0x180 + 4 + Module.Packed1 chainImage 0x180 ≤ 0x200 ∧
    Module.Compression chainImage 0x180 = 5 ∧
    PhoenixModule noMapEnv chainImage 0x200 0x180 =
      .ret ⟨0xC0, [.openFile "display_1.rom" true, .mapFailed "display_1.rom" 8]⟩ ∧
    [Event.openFile "display_1.rom" true, Event.mapFailed "display_1.rom" 8].filterMap
      (Event.fileBytes noMapEnv chainImage) = [] ∧
    PhoenixModule roEnv chainImage 0x200 0x180 =
      .ret ⟨0xC0, [.openFile "display_1.rom" false, .errOpen "display_1.rom"]⟩ ∧
    [Event.openFile "display_1.rom" false, Event.errOpen "display_1.rom"].filterMap
      (Event.fileBytes roEnv chainImage) = [] := by
  decide

/-- C11, amended.  For a module with a valid signature that passes the test
of line 111, whose output file `filename` is created and mapped
(`MMapOutputFile(filename, ExpLen1)` returns a buffer) and whose
`Compression` is 5, the only file operation after `open` is the call of the
decoder on the span `[Offset + HeadLen + 4, Offset + HeadLen + 4 + Packed1)`
with packed length `Packed1` and an output region of `ExpLen1` bytes, and
the output is what the decoder leaves there.  Hence, for a decoder that
inverts an encoder, if the span holds `encode data` and
`ExpLen1 = |data|`, the output is `data` and has `ExpLen1` bytes. -/
theorem C11_lh5_decode (env : Env) (m : Mem) (BIOSLength Offset : Nat) (filename : String)
    (hs : validSignature m Offset = true) (ho : overrunCheck m BIOSLength Offset = false)
    (hn : resolveFilename (Module.Type_ m Offset) (Module.Id m Offset) = .ret filename)
    (hf : env.openOk filename = true)
    (hmap : env.mapOk filename (Module.ExpLen1 m Offset) = true)
    (hc : Module.Compression m Offset = 5) :
    PhoenixModule env m BIOSLength Offset =
      .ret ⟨Module.Previous m Offset, [.openFile filename true,
        .decode filename (Offset + Module.HeadLen m Offset + 4) (Module.Packed1 m Offset)
          (Module.ExpLen1 m Offset)]⟩ ∧
    Event.fileBytes env m
        (.decode filename (Offset + Module.HeadLen m Offset + 4) (Module.Packed1 m Offset)
          (Module.ExpLen1 m Offset)) =
      some (filename,
        env.LH5Decode (readSpan m (Offset + Module.HeadLen m Offset + 4) (Module.Packed1 m Offset))
          (Module.Packed1 m Offset) (Module.ExpLen1 m Offset)) ∧
    ∀ (encode : List Nat → List Nat) (data : List Nat),
      (∀ d, env.LH5Decode (encode d) (encode d).length d.length = d) →
      readSpan m (Offset + Module.HeadLen m Offset + 4) (Module.Packed1 m Offset) = encode data →
      Module.ExpLen1 m Offset = data.length →
      Event.fileBytes env m
          (.decode filename (Offset + Module.HeadLen m Offset + 4) (Module.Packed1 m Offset)
            (Module.ExpLen1 m Offset)) = some (filename, data) ∧
        data.length = Module.ExpLen1 m Offset := by
  refine ⟨?_, rfl, ?_⟩
  · rw [PhoenixModule_created env m BIOSLength Offset filename hs ho hn hf]
    simp [dispatch, hc, hmap]
  · intro encode data hinv hspan hexp
    have hlen : Module.Packed1 m Offset = (encode data).length := by
      rw [← hspan, readSpan_length]
    refine ⟨?_, hexp.symm⟩
    simp only [Event.fileBytes]
    rw [hspan, hexp, hlen, hinv data]

/-- C11 witness: the LH5 module at `0x180` of `chainImage`, with the stub
decoder of `okEnv`. -/
theorem C11_lh5_decode_witness :
    PhoenixModule okEnv chainImage 0x200 0x180 =
      .ret ⟨Module.Previous chainImage 0x180, [.openFile "display_1.rom" true,
        .decode "display_1.rom" (0x180 + Module.HeadLen chainImage 0x180 + 4)
          (Module.Packed1 chainImage 0x180) (Module.ExpLen1 chainImage 0x180)]⟩ :=
  (C11_lh5_decode okEnv chainImage 0x200 0x180 "display_1.rom"
    (by decide) (by decide) (by decide) (by decide) (by decide) (by decide)).1

/-! ## C12: the unsupported-codec branch -/

/-- C12.  For a module with a valid signature that passes the test of line
111 (no overrun), whose output file `filename` is created and whose
`Compression` is neither 0 nor 5, `PhoenixModule` reports the code and
performs exactly one `write`, of the span
`[Offset + HeadLen + 4, Offset + HeadLen + 4 + Packed1)`: the file receives
`Packed1` bytes, byte `i` being the image byte at `Offset + HeadLen + 4 + i`.
It returns `Previous`, and the walk goes on from `Previous & (BIOSLength - 1)`. -/
theorem C12_unsupported_salvage (env : Env) (m : Mem) (BIOSLength Offset : Nat)
    (filename : String)
    (hs : validSignature m Offset = true) (ho : overrunCheck m BIOSLength Offset = false)
    (hn : resolveFilename (Module.Type_ m Offset) (Module.Id m Offset) = .ret filename)
    (hf : env.openOk filename = true)
    (hc0 : Module.Compression m Offset ≠ 0) (hc5 : Module.Compression m Offset ≠ 5) :
    PhoenixModule env m BIOSLength Offset =
      .ret ⟨Module.Previous m Offset, [.openFile filename true,
        .errUnsupported filename (Module.Compression m Offset),
        .write filename (Offset + Module.HeadLen m Offset + 4) (Module.Packed1 m Offset)]⟩ ∧
    (∃ bytes,
      Event.fileBytes env m
        (.write filename (Offset + Module.HeadLen m Offset + 4) (Module.Packed1 m Offset)) =
          some (filename, bytes) ∧
      bytes.length = Module.Packed1 m Offset ∧
      ∀ i, i < Module.Packed1 m Offset →
        bytes[i]? = some (rd8 m (Offset + Module.HeadLen m Offset + 4 + i))) ∧
    ∀ (fuel : Nat) (envs : Nat → Env) (vs : List Visit), envs 0 = env → Offset ≠ 0 →
      walk m BIOSLength fuel (fun k => envs (k + 1))
        (Module.Previous m Offset &&& mask BIOSLength) = .ret vs →
      walk m BIOSLength (fuel + 1) envs Offset =
        .ret ((Offset, ⟨Module.Previous m Offset, [.openFile filename true,
          .errUnsupported filename (Module.Compression m Offset),
          .write filename (Offset + Module.HeadLen m Offset + 4)
            (Module.Packed1 m Offset)]⟩) :: vs) := by
  have hpm : PhoenixModule env m BIOSLength Offset =
      .ret ⟨Module.Previous m Offset, [.openFile filename true,
        .errUnsupported filename (Module.Compression m Offset),
        .write filename (Offset + Module.HeadLen m Offset + 4) (Module.Packed1 m Offset)]⟩ := by
    rw [PhoenixModule_created env m BIOSLength Offset filename hs ho hn hf]
    simp [dispatch, hc0, hc5]
  refine ⟨hpm, ⟨_, rfl, readSpan_length m _ _, fun i hi => readSpan_getElem m _ _ i hi⟩, ?_⟩
  intro fuel envs vs henv h0 hw
  rw [walk_step m BIOSLength fuel envs Offset _ h0 (henv ▸ hpm)]
  simp only [hw]

/-- C12 witness: the `logo` module at `0xC0` of `chainImage`, whose
compression code is 3. -/
theorem C12_unsupported_salvage_witness :
    PhoenixModule okEnv chainImage 0x200 0xC0 =
      .ret ⟨Module.Previous chainImage 0xC0, [.openFile "logo_0.rom" true,
        .errUnsupported "logo_0.rom" (Module.Compression chainImage 0xC0),
        .write "logo_0.rom" (0xC0 + Module.HeadLen chainImage 0xC0 + 4)
          (Module.Packed1 chainImage 0xC0)]⟩ :=
  (C12_unsupported_salvage okEnv chainImage 0x200 0xC0 "logo_0.rom"
    (by decide) (by decide) (by decide) (by decide) (by decide) (by decide)).1

/-! ## C13: header reads and the buffer bound -/

/-- Every header read of a call at `o` lies inside the 24 bytes
`[o, o + 24)`. -/
theorem headerReads_within (env : Env) (m : Mem) (BIOSLength o a l : Nat)
    (h : (a, l) ∈ headerReads env m BIOSLength o) : o ≤ a ∧ a + l ≤ o + 24 := by
  unfold headerReads signatureReads at h
  rcases List.mem_append.mp h with h | h
  · split_ifs at h <;> simp at h <;> omega
  · split_ifs at h <;> (try split at h) <;> (try split_ifs at h) <;> simp at h <;> omega

/-- The masked anchor is below `BIOSLength`. -/
theorem anchorOffset_lt (k : Nat) (hk : k ≤ 32) (m : Mem) (ID : Nat) :
    anchorOffset m (2 ^ k) ID < 2 ^ k := by
  unfold anchorOffset
  rw [land_mask_two_pow k hk]
  exact Nat.mod_lt _ (Nat.two_pow_pos k)

/-- Every call made by a walk that starts below `BIOSLength` is at a
non-zero offset below `BIOSLength`, and so is the current offset. -/
theorem walkIter_bound (k : Nat) (hk : k ≤ 32) (envs : Nat → Env) (m : Mem) (start : Nat)
    (hstart : start < 2 ^ k) :
    ∀ (n o : Nat) (vs : List Visit), walkIter m (2 ^ k) envs n start = .ret (o, vs) →
      o < 2 ^ k ∧ ∀ v ∈ vs, 0 < v.1 ∧ v.1 < 2 ^ k := by
  intro n
  induction n with
  | zero =>
    intro o vs h
    simp only [walkIter, Run.ret.injEq, Prod.mk.injEq] at h
    obtain ⟨rfl, rfl⟩ := h
    exact ⟨hstart, by simp⟩
  | succ n ih =>
    intro o vs h
    simp only [walkIter] at h
    cases hprev : walkIter m (2 ^ k) envs n start with
    | undef f => simp [hprev] at h
    | outOfFuel => simp [hprev] at h
    | ret p =>
      obtain ⟨o1, vs1⟩ := p
      obtain ⟨hlt, hall⟩ := ih o1 vs1 hprev
      simp only [hprev] at h
      by_cases hz : o1 = 0
      · simp only [if_pos hz, Run.ret.injEq, Prod.mk.injEq] at h
        obtain ⟨rfl, rfl⟩ := h
        exact ⟨hlt, hall⟩
      · simp only [if_neg hz] at h
        cases hpm : PhoenixModule (envs n) m (2 ^ k) o1 with
        | undef f => simp [hpm] at h
        | outOfFuel => simp [hpm] at h
        | ret r =>
          simp only [hpm, Run.ret.injEq, Prod.mk.injEq] at h
          obtain ⟨rfl, rfl⟩ := h
          refine ⟨?_, ?_⟩
          · rw [land_mask_two_pow k hk]
            exact Nat.mod_lt _ (Nat.two_pow_pos k)
          · intro v hv
            rcases List.mem_append.mp hv with hv | hv
            · exact hall v hv
            · simp only [List.mem_singleton] at hv
              subst hv
              exact ⟨Nat.pos_of_ne_zero hz, hlt⟩

/-- Every call listed by a walk that returns, started below `BIOSLength`,
is at a non-zero offset below `BIOSLength`. -/
theorem walk_bound (k : Nat) (hk : k ≤ 32) (m : Mem) :
    ∀ (fuel : Nat) (envs : Nat → Env) (o : Nat) (vs : List Visit), o < 2 ^ k →
      walk m (2 ^ k) fuel envs o = .ret vs → ∀ v ∈ vs, 0 < v.1 ∧ v.1 < 2 ^ k := by
  intro fuel
  induction fuel with
  | zero =>
    intro envs o vs _ hw
    by_cases h0 : o = 0
    · subst h0
      rw [walk_zero] at hw
      simp only [Run.ret.injEq] at hw
      subst hw
      simp
    · obtain ⟨f, _, _, hf, _⟩ := walk_ret_inv m _ 0 envs o vs h0 hw
      omega
  | succ f ih =>
    intro envs o vs hlt hw
    by_cases h0 : o = 0
    · subst h0
      rw [walk_zero] at hw
      simp only [Run.ret.injEq] at hw
      subst hw
      simp
    · obtain ⟨f', r, vs0, hf, _, hw0, rfl⟩ := walk_ret_inv m _ (f + 1) envs o vs h0 hw
      have hff : f = f' := by omega
      subst hff
      have hnext : r.ret &&& mask (2 ^ k) < 2 ^ k := by
        rw [land_mask_two_pow k hk]
        exact Nat.mod_lt _ (Nat.two_pow_pos k)
      intro v hv
      rcases List.mem_cons.mp hv with rfl | hv
      · exact ⟨Nat.pos_of_ne_zero h0, hlt⟩
      · exact ih _ _ vs0 hnext hw0 v hv

/-- C13, counterexample.  With `BIOSLength = 0x200`, the anchor of
`edgeImage` makes the walker call `PhoenixModule` at `0x1FF`, where the
signature bytes it reads are at `0x203` and `0x204`, outside the buffer.
In `tailImage` the module at `0x1F0` even passes the test of line 111 and
is extracted, although its `Packed1` field, at `0x204` to `0x207`, is
outside the buffer. -/
theorem C13_header_read_past_buffer :
    PhoenixExtract 3 (fun _ => okEnv) edgeImage 0x200 0 0 0 =
      .ret ⟨true, [], [(0x1FF, ⟨0, [.errInvalidSignature 0x1FF]⟩)]⟩ ∧
    headerReads okEnv edgeImage 0x200 0x1FF = [(0x203, 1), (0x204, 1)] ∧
    ¬ (0x203 + 1 ≤ 0x200) ∧
    PhoenixExtract 3 (fun _ => okEnv) tailImage 0x200 0 0 0 =
      .ret ⟨true, [], [(0x1F0, ⟨0, [.openFile "acpi_2.rom" true,
        .write "acpi_2.rom" 0x1F8 0]⟩)]⟩ ∧
    (0x204, 4) ∈ headerReads okEnv tailImage 0x200 0x1F0 ∧
    ¬ (0x204 + 4 ≤ 0x200) := by
  decide

/-- C13, amended.  For `BIOSLength = 2 ^ k`, every offset at which the
walker calls `PhoenixModule` is non-zero and below `BIOSLength` (after any
number of iterations, and for every call listed when `PhoenixExtract`
returns), and every header byte a call at such an offset `o` reads lies in
`[o, o + 24)`, hence below `BIOSLength + 23`.  No header read is checked
against `BIOSLength`. -/
theorem C13_header_reads_near_buffer (k : Nat) (hk : k ≤ 32) (envs : Nat → Env) (m : Mem) :
    (∀ (ID n o : Nat) (vs : List Visit),
      walkIter m (2 ^ k) envs n (anchorOffset m (2 ^ k) ID) = .ret (o, vs) →
      o < 2 ^ k ∧ ∀ v ∈ vs, 0 < v.1 ∧ v.1 < 2 ^ k) ∧
    (∀ (fuel BIOSOffset Offset1 BCPSegmentOffset : Nat) (r : ExtractResult),
      PhoenixExtract fuel envs m (2 ^ k) BIOSOffset Offset1 BCPSegmentOffset = .ret r →
      ∀ v ∈ r.visits, 0 < v.1 ∧ v.1 < 2 ^ k) ∧
    (∀ (env : Env) (o a l : Nat), 0 < o → o < 2 ^ k →
      (a, l) ∈ headerReads env m (2 ^ k) o →
      o ≤ a ∧ a + l ≤ o + 24 ∧ a + l ≤ 2 ^ k + 23) := by
  refine ⟨?_, ?_, ?_⟩
  · intro ID n o vs h
    exact walkIter_bound k hk envs m _ (anchorOffset_lt k hk m ID) n o vs h
  · intro fuel BIOSOffset Offset1 BCPSegmentOffset r h
    unfold PhoenixExtract at h
    cases hscan : scanID m (2 ^ k) fuel (BCPSegmentOffset + 10) with
    | none => simp [hscan] at h
    | some ID =>
      simp only [hscan, afterScan] at h
      split_ifs at h with h1 h2
      · simp only [Run.ret.injEq] at h
        subst h
        simp
      · simp only [Run.ret.injEq] at h
        subst h
        simp
      · cases hw : walk m (2 ^ k) fuel envs (anchorOffset m (2 ^ k) ID) with
        | undef f => simp [hw] at h
        | outOfFuel => simp [hw] at h
        | ret vs =>
          simp only [hw, Run.ret.injEq] at h
          subst h
          exact walk_bound k hk m fuel envs _ vs (anchorOffset_lt k hk m ID) hw
  · intro env o a l _ hlt h
    have := headerReads_within env m (2 ^ k) o a l h
    omega

/-- C13 witness: `chainImage` with `BIOSLength = 2 ^ 9`.  After three
iterations the walk has ended, its three calls were at non-zero offsets
below `0x200`, and the `Packed1` field read by the call at `0x180` lies
within 24 bytes of that offset. -/
theorem C13_header_reads_near_buffer_witness :
    (0 < 2 ^ 9 ∧
      ∀ v ∈ ([(0x100, ⟨0x380, [.openFile "acpi_2.rom" true, .write "acpi_2.rom" 283 4]⟩),
          (0x180, ⟨0xC0, [.openFile "display_1.rom" true, .decode "display_1.rom" 415 4 8]⟩),
          (0xC0, ⟨0x200, [.openFile "logo_0.rom" true, .errUnsupported "logo_0.rom" 3,
            .write "logo_0.rom" 223 2]⟩)] : List Visit),
        0 < v.1 ∧ v.1 < 2 ^ 9) ∧
    ((0x194, 4) ∈ headerReads okEnv chainImage (2 ^ 9) 0x180 →
      0x180 ≤ 0x194 ∧ 0x194 + 4 ≤ 0x180 + 24 ∧ 0x194 + 4 ≤ 2 ^ 9 + 23) :=
  ⟨(C13_header_reads_near_buffer 9 (by decide) (fun _ => okEnv) chainImage).1 42 3 0 _
      (by decide),
    (C13_header_reads_near_buffer 9 (by decide) (fun _ => okEnv) chainImage).2.2
      okEnv 0x180 0x194 4 (by decide) (by decide)⟩

/-! ## C14: the lookup in `PhoenixModuleNames` -/

/-- C14, evaluated at a failing input.  Each of the 26 registered codes
yields the name of its entry (`'A'` gives `acpi`, `'D'` gives `display`,
`'G'` gives `decompcode`), but no entry has a `NULL` name, so for the code
`'Z'`, which is not registered, the loop does not stop at the end of the
table with `NULL`: it goes on to read `PhoenixModuleNames[26]`. -/
theorem C14_lookup_reads_past_table :
    PhoenixModuleNames.length = 26 ∧
    (∀ e ∈ PhoenixModuleNames, PhoenixModuleNameGet e.1 = .ret e.2 ∧ e.2 ≠ none) ∧
    PhoenixModuleNameGet 65 = .ret (some "acpi") ∧
    PhoenixModuleNameGet 68 = .ret (some "display") ∧
    PhoenixModuleNameGet 71 = .ret (some "decompcode") ∧
    registeredName 0x5A = none ∧
    PhoenixModuleNameGet 0x5A = .undef .tableOverrun := by
  decide

/-! ## C15: `PhoenixTrustedExtract` -/

/-- C15.  Whatever the image, the length and the offsets, the function
`PhoenixTrustedExtract` returns `FALSE` without calling `PhoenixModule`, and
two images give the same result and the same diagnostic. -/
theorem C15_trusted_extract_fails (m m' : Mem)
    (BIOSLength BIOSOffset Offset1 BCPSegmentOffset : Nat) :
    (PhoenixTrustedExtract m BIOSLength BIOSOffset Offset1 BCPSegmentOffset).ret = false ∧
    (PhoenixTrustedExtract m BIOSLength BIOSOffset Offset1 BCPSegmentOffset).visits = [] ∧
    PhoenixTrustedExtract m' BIOSLength BIOSOffset Offset1 BCPSegmentOffset =
      PhoenixTrustedExtract m BIOSLength BIOSOffset Offset1 BCPSegmentOffset :=
  ⟨rfl, rfl, rfl⟩

/-! ## C16: the buffer of the file name -/

/-- The text `resolveFilename` yields is the one written into the buffer of
`filenameBuffer`. -/
theorem filenameBuffer_text (Ty Id : Nat) (filename : String) :
    resolveFilename Ty Id = .ret filename ↔
      ∃ size, filenameBuffer Ty Id = .ret (size, filename) := by
  unfold resolveFilename filenameBuffer
  cases PhoenixModuleNameGet Ty with
  | undef f => simp
  | outOfFuel => simp
  | ret name =>
    cases name with
    | none => simp
    | some n => simp

/-- For a registered type and an `Id` below 10 the formatted name with its
terminator fills the allocated buffer exactly. -/
theorem filenameBuffer_fits_one_digit (Ty Id : Nat) (name : String)
    (h : (Ty, some name) ∈ PhoenixModuleNames) (hId : Id < 10) :
    filenameBuffer Ty Id = .ret ((nameRom name Id).length + 1, nameRom name Id) := by
  have hget := PhoenixModuleNameGet_registered (Ty, some name) h
  have hdec : (dec Id).length = 1 := (by decide : ∀ i, i < 10 → (dec i).length = 1) Id hId
  have hlen : (nameRom name Id).length = name.length + 6 := by
    simp only [nameRom, String.length_append, hdec]
    have h1 : "_".length = 1 := by decide
    have h2 : ".rom".length = 4 := by decide
    omega
  simp only [filenameBuffer, hget, hlen]

/-- C16, evaluated at a failing input.  For `Type = 'A'` and `Id = 10` the
`Id` is printed with two digits: `sprintf` writes `acpi_10.rom` and its
terminator, 12 bytes, into the buffer of `strlen("acpi") + 7 = 11` bytes; for
`Id = 255` it writes 13 bytes.  The module at `0x100` of `tenImage` makes
`PhoenixModule` do so. -/
theorem C16_filename_exceeds_buffer :
    filenameBuffer 65 10 = .ret (11, "acpi_10.rom") ∧
    (dec 10).length = 2 ∧
    "acpi_10.rom".length + 1 = 12 ∧
    filenameBuffer 65 255 = .ret (11, "acpi_255.rom") ∧
    "acpi_255.rom".length + 1 = 13 ∧
    Module.Type_ tenImage 0x100 = 65 ∧ Module.Id tenImage 0x100 = 10 ∧
    PhoenixModule okEnv tenImage 0x200 0x100 =
      .ret ⟨0, [.openFile "acpi_10.rom" true, .write "acpi_10.rom" 0x11B 4]⟩ := by
  decide

/-! ## The walk, iteration by iteration -/

/-- Started at zero, the loop makes no call. -/
theorem walkIter_zero (m : Mem) (BIOSLength : Nat) (envs : Nat → Env) :
    ∀ n, walkIter m BIOSLength envs n 0 = .ret (0, []) := by
  intro n
  induction n with
  | zero => rfl
  | succ n ih => simp [walkIter, ih]

/-- The first of `n + 1` iterations, at a non-zero `Offset` where
`PhoenixModule` returns `r`, followed by `n` iterations from the masked
value. -/
theorem walkIter_front (m : Mem) (BIOSLength : Nat) :
    ∀ (n : Nat) (envs : Nat → Env) (o : Nat) (r : ModuleResult), o ≠ 0 →
      PhoenixModule (envs 0) m BIOSLength o = .ret r →
      walkIter m BIOSLength envs (n + 1) o =
        match walkIter m BIOSLength (fun k => envs (k + 1)) n (r.ret &&& mask BIOSLength) with
        | .ret (o', vs) => .ret (o', (o, r) :: vs)
        | .undef f => .undef f
        | .outOfFuel => .outOfFuel := by
  intro n
  induction n with
  | zero =>
    intro envs o r h0 hr
    simp [walkIter, h0, hr]
  | succ n ih =>
    intro envs o r h0 hr
    rw [walkIter, ih envs o r h0 hr]
    cases hrest : walkIter m BIOSLength (fun k => envs (k + 1)) n (r.ret &&& mask BIOSLength) with
    | undef f => simp [walkIter, hrest]
    | outOfFuel => simp [walkIter, hrest]
    | ret p =>
      obtain ⟨o', vs⟩ := p
      simp only [walkIter, hrest]
      by_cases hz : o' = 0
      · simp [hz]
      · simp only [if_neg hz]
        cases PhoenixModule (envs (n + 1)) m BIOSLength o' with
        | undef f => rfl
        | outOfFuel => rfl
        | ret r' => simp

/-- A walk that returns within `fuel` iterations is the loop after `fuel`
iterations: `Offset` is zero and the calls are the same. -/
theorem walkIter_of_walk (m : Mem) (BIOSLength : Nat) :
    ∀ (fuel : Nat) (envs : Nat → Env) (o : Nat) (vs : List Visit),
      walk m BIOSLength fuel envs o = .ret vs →
      walkIter m BIOSLength envs fuel o = .ret (0, vs) := by
  intro fuel
  induction fuel with
  | zero =>
    intro envs o vs hw
    by_cases h0 : o = 0
    · subst h0
      rw [walk_zero] at hw
      simp only [Run.ret.injEq] at hw
      subst hw
      rfl
    · obtain ⟨f, _, _, hf, _⟩ := walk_ret_inv m _ 0 envs o vs h0 hw
      omega
  | succ f ih =>
    intro envs o vs hw
    by_cases h0 : o = 0
    · subst h0
      rw [walk_zero] at hw
      simp only [Run.ret.injEq] at hw
      subst hw
      exact walkIter_zero m BIOSLength envs (f + 1)
    · obtain ⟨f', r, vs0, hf, hpm, hw0, rfl⟩ := walk_ret_inv m _ (f + 1) envs o vs h0 hw
      have hff : f = f' := by omega
      subst hff
      rw [walkIter_front m BIOSLength f envs o r h0 hpm, ih _ _ vs0 hw0]

/-! ## C17: circular chains -/

/-- A valid module that passes the test of line 111 and whose file name is
resolved makes `PhoenixModule` open that file and return `Previous`,
whether `open` succeeds or not. -/
theorem PhoenixModule_opens (env : Env) (m : Mem) (BIOSLength o : Nat) (filename : String)
    (hs : validSignature m o = true) (ho : overrunCheck m BIOSLength o = false)
    (hn : resolveFilename (Module.Type_ m o) (Module.Id m o) = .ret filename) :
    ∃ r, PhoenixModule env m BIOSLength o = .ret r ∧ r.ret = Module.Previous m o ∧
      ∃ ok, Event.openFile filename ok ∈ r.out := by
  cases hf : env.openOk filename with
  | false =>
    exact ⟨_, PhoenixModule_open_failed env m BIOSLength o filename hs ho hn hf, rfl,
      false, by simp⟩
  | true =>
    exact ⟨_, PhoenixModule_created env m BIOSLength o filename hs ho hn hf, rfl,
      true, by simp⟩

/-- C17.  A circular chain is not detected.  When the walk is at a non-zero
offset `o` that holds a module with a valid signature and no overrun whose
`Previous`, masked with `BIOSLength - 1`, is `o` itself, then after every
number `n` of iterations the current offset is still `o`, the `n` calls made
so far were all for the module at `o` and each opened its output file
again; the walk does not end within any number of iterations, and
`PhoenixExtract` does not return when the anchor leads to `o`. -/
theorem C17_self_loop_never_ends (envs : Nat → Env) (m : Mem) (BIOSLength o : Nat)
    (filename : String) (h0 : o ≠ 0)
    (hs : validSignature m o = true) (ho : overrunCheck m BIOSLength o = false)
    (hn : resolveFilename (Module.Type_ m o) (Module.Id m o) = .ret filename)
    (hp : Module.Previous m o &&& mask BIOSLength = o) :
    (∀ n, ∃ vs, walkIter m BIOSLength envs n o = .ret (o, vs) ∧ vs.length = n ∧
      ∀ v ∈ vs, v.1 = o ∧ v.2.ret = Module.Previous m o ∧
        ∃ ok, Event.openFile filename ok ∈ v.2.out) ∧
    (∀ fuel, walk m BIOSLength fuel envs o = .outOfFuel) ∧
    (∀ fuel BIOSOffset Offset1 BCPSegmentOffset ID,
      scanID m BIOSLength fuel (BCPSegmentOffset + 10) = some ID →
      ¬ (rd8 m ID = 0 ∨ ID ≥ BIOSLength) → anchorOffset m BIOSLength ID = o →
      PhoenixExtract fuel envs m BIOSLength BIOSOffset Offset1 BCPSegmentOffset = .outOfFuel) := by
  have hwalk : ∀ (fuel : Nat) (envs : Nat → Env), walk m BIOSLength fuel envs o = .outOfFuel := by
    intro fuel
    induction fuel with
    | zero =>
      intro envs
      rw [walk]
      simp [h0]
    | succ f ih =>
      intro envs
      obtain ⟨r, hr, hret, _⟩ := PhoenixModule_opens (envs 0) m BIOSLength o filename hs ho hn
      rw [walk_step m BIOSLength f envs o r h0 hr, hret, hp, ih]
  refine ⟨?_, fun fuel => hwalk fuel envs, ?_⟩
  · intro n
    induction n with
    | zero => exact ⟨[], rfl, rfl, by simp⟩
    | succ n ih =>
      obtain ⟨vs, hvs, hlen, hall⟩ := ih
      obtain ⟨r, hr, hret, hopen⟩ :=
        PhoenixModule_opens (envs n) m BIOSLength o filename hs ho hn
      refine ⟨vs ++ [(o, r)], ?_, by simp [hlen], ?_⟩
      · simp only [walkIter, hvs, if_neg h0, hr, hret, hp]
      · intro v hv
        rcases List.mem_append.mp hv with hv | hv
        · exact hall v hv
        · simp only [List.mem_singleton] at hv
          subst hv
          exact ⟨rfl, hret, hopen⟩
  · intro fuel BIOSOffset Offset1 BCPSegmentOffset ID hscan h1 ha
    simp only [PhoenixExtract, hscan, afterScan, if_neg h1, ha, if_neg h0, hwalk fuel envs]

/-- C17 witness: the module at `0x100` of `loopImage`, whose `Previous` is
`0x300`, with `BIOSLength = 0x200`: seven iterations do not end the walk. -/
theorem C17_self_loop_never_ends_witness :
    walk loopImage 0x200 7 (fun _ => okEnv) 0x100 = .outOfFuel :=
  (C17_self_loop_never_ends (fun _ => okEnv) loopImage 0x200 0x100 "acpi_2.rom"
    (by decide) (by decide) (by decide) (by decide) (by decide)).2.1 7

/-! ## C18: distinct modules, distinct file names -/

set_option maxRecDepth 100000 in
/-- Reading back the decimal text of a byte gives the byte. -/
theorem undec_dec : ∀ i, i < 256 → undec (dec i) = i := by
  decide

set_option maxRecDepth 100000 in
/-- Reading back the name part of a `Type` byte gives the byte: the
registered names are pairwise distinct and none is a pair of hexadecimal
digits. -/
theorem codeOfName_namePart : ∀ Ty, Ty < 256 → codeOfName (namePart Ty) = Ty := by
  decide

set_option maxRecDepth 100000 in
/-- The text after the separator, the decimal `Id` and `.rom`, contains no
underscore. -/
theorem tail_no_separator : ∀ i, i < 256 → '_' ∉ (dec i).data ++ ".rom".data := by
  decide

set_option maxRecDepth 100000 in
/-- For each `Type` byte, either the lookup of the code returns the name
the registry holds, or the registry holds none and the lookup reads past
the table. -/
theorem PhoenixModuleNameGet_registeredName : ∀ Ty, Ty < 256 →
    (PhoenixModuleNameGet Ty = .ret (registeredName Ty) ∧ registeredName Ty ≠ none) ∨
    (PhoenixModuleNameGet Ty = .undef .tableOverrun ∧ registeredName Ty = none) := by
  decide

/-- A text is split in one way only at its last occurrence of `x`. -/
theorem append_sep_inj {α : Type} (x : α) :
    ∀ (a c b d : List α), x ∉ b → x ∉ d → a ++ x :: b = c ++ x :: d → a = c ∧ b = d := by
  intro a
  induction a with
  | nil =>
    intro c b d hb hd h
    cases c with
    | nil =>
      simp only [List.nil_append, List.cons.injEq, true_and] at h
      exact ⟨rfl, h⟩
    | cons y c =>
      simp only [List.nil_append, List.cons_append, List.cons.injEq] at h
      exact absurd (h.2 ▸ List.mem_append_right c (List.mem_cons_self x d)) hb
  | cons y a ih =>
    intro c b d hb hd h
    cases c with
    | nil =>
      simp only [List.nil_append, List.cons_append, List.cons.injEq] at h
      exact absurd (h.2 ▸ List.mem_append_right a (List.mem_cons_self x b)) hd
    | cons z c =>
      simp only [List.cons_append, List.cons.injEq] at h
      obtain ⟨hac, hbd⟩ := ih c b d hb hd h.2
      exact ⟨by rw [h.1, hac], hbd⟩

/-- The file name is the name part, `_`, the decimal `Id` and `.rom`. -/
theorem formattedName_data (Ty Id : Nat) :
    (formattedName Ty Id).data = (namePart Ty).data ++ '_' :: ((dec Id).data ++ ".rom".data) := by
  unfold formattedName namePart
  cases registeredName Ty with
  | none => simp [hexRom, String.data_append]
  | some name => simp [nameRom, String.data_append]

/-- The file name of the specification determines `Type` and `Id`. -/
theorem formattedName_injective (Ty1 Id1 Ty2 Id2 : Nat)
    (h1 : Ty1 < 256) (h2 : Id1 < 256) (h3 : Ty2 < 256) (h4 : Id2 < 256)
    (h : formattedName Ty1 Id1 = formattedName Ty2 Id2) : Ty1 = Ty2 ∧ Id1 = Id2 := by
  have hd := congrArg String.data h
  rw [formattedName_data, formattedName_data] at hd
  obtain ⟨hname, htail⟩ := append_sep_inj '_' _ _ _ _
    (tail_no_separator Id1 h2) (tail_no_separator Id2 h4) hd
  have hn : namePart Ty1 = namePart Ty2 := String.ext hname
  have hdec : dec Id1 = dec Id2 := String.ext (List.append_cancel_right htail)
  constructor
  · rw [← codeOfName_namePart Ty1 h1, ← codeOfName_namePart Ty2 h3, hn]
  · rw [← undec_dec Id1 h2, ← undec_dec Id2 h4, hdec]

/-- Wherever the code resolves a file name, it is the file name of the
specification. -/
theorem resolveFilename_formattedName (Ty Id : Nat) (hTy : Ty < 256) (filename : String)
    (h : resolveFilename Ty Id = .ret filename) : filename = formattedName Ty Id := by
  unfold resolveFilename at h
  unfold formattedName
  rcases PhoenixModuleNameGet_registeredName Ty hTy with ⟨hget, hne⟩ | ⟨hget, _⟩
  · rw [hget] at h
    cases hreg : registeredName Ty with
    | none => exact absurd hreg hne
    | some name =>
      simp only [hreg, Run.ret.injEq] at h
      exact h.symm
  · rw [hget] at h
    exact absurd h (by simp)

/-- A file that a call of `PhoenixModule` creates bears the name resolved
from the `Type` and `Id` of the header. -/
theorem filesCreated_resolved (env : Env) (m : Mem) (BIOSLength Offset : Nat)
    (r : ModuleResult) (filename : String)
    (hr : PhoenixModule env m BIOSLength Offset = .ret r)
    (hf : filename ∈ filesCreated r.out) :
    resolveFilename (Module.Type_ m Offset) (Module.Id m Offset) = .ret filename := by
  cases hs : validSignature m Offset with
  | false =>
    rw [PhoenixModule_invalid env m BIOSLength Offset hs] at hr
    simp only [Run.ret.injEq] at hr
    subst hr
    simp [filesCreated] at hf
  | true =>
    cases ho : overrunCheck m BIOSLength Offset with
    | true =>
      rw [PhoenixModule_overrun env m BIOSLength Offset hs ho] at hr
      simp only [Run.ret.injEq] at hr
      subst hr
      simp [filesCreated] at hf
    | false =>
      cases hn : resolveFilename (Module.Type_ m Offset) (Module.Id m Offset) with
      | undef f =>
        rw [PhoenixModule_undef env m BIOSLength Offset f hs ho hn] at hr
        exact absurd hr (by simp)
      | outOfFuel => exact absurd hn (resolveFilename_ne_outOfFuel _ _)
      | ret name =>
        cases hopen : env.openOk name with
        | false =>
          rw [PhoenixModule_open_failed env m BIOSLength Offset name hs ho hn hopen] at hr
          simp only [Run.ret.injEq] at hr
          subst hr
          simp [filesCreated] at hf
        | true =>
          rw [PhoenixModule_created env m BIOSLength Offset name hs ho hn hopen] at hr
          simp only [Run.ret.injEq] at hr
          subst hr
          simp only [filesCreated, filesCreated_dispatch, List.mem_singleton] at hf
          rw [hf]

/-- C18.  For two pairs of bytes `(Type, Id)` that differ, the file names
of the specification differ (registered names are pairwise distinct, none
is a pair of hexadecimal digits, and the last `_` separates the name from
the `Id`); every name the code resolves is that file name, so the names
resolved for two differing pairs differ; and two calls of `PhoenixModule`
create a file of the same name only for headers with the same `Type` and
the same `Id`. -/
theorem C18_filename_injective (Ty1 Id1 Ty2 Id2 : Nat)
    (h1 : Ty1 < 256) (h2 : Id1 < 256) (h3 : Ty2 < 256) (h4 : Id2 < 256)
    (hne : ¬ (Ty1 = Ty2 ∧ Id1 = Id2)) :
    formattedName Ty1 Id1 ≠ formattedName Ty2 Id2 ∧
    (∀ f1 f2, resolveFilename Ty1 Id1 = .ret f1 → resolveFilename Ty2 Id2 = .ret f2 →
      f1 ≠ f2) ∧
    (∀ (env1 env2 : Env) (m : Mem) (BIOSLength o1 o2 : Nat) (r1 r2 : ModuleResult)
        (filename : String),
      Module.Type_ m o1 = Ty1 → Module.Id m o1 = Id1 →
      Module.Type_ m o2 = Ty2 → Module.Id m o2 = Id2 →
      PhoenixModule env1 m BIOSLength o1 = .ret r1 →
      PhoenixModule env2 m BIOSLength o2 = .ret r2 →
      ¬ (filename ∈ filesCreated r1.out ∧ filename ∈ filesCreated r2.out)) := by
  have hfmt : formattedName Ty1 Id1 ≠ formattedName Ty2 Id2 := fun h =>
    hne (formattedName_injective Ty1 Id1 Ty2 Id2 h1 h2 h3 h4 h)
  have hres : ∀ f1 f2, resolveFilename Ty1 Id1 = .ret f1 → resolveFilename Ty2 Id2 = .ret f2 →
      f1 ≠ f2 := by
    intro f1 f2 hf1 hf2 heq
    apply hfmt
    rw [← resolveFilename_formattedName Ty1 Id1 h1 f1 hf1,
      ← resolveFilename_formattedName Ty2 Id2 h3 f2 hf2, heq]
  refine ⟨hfmt, hres, ?_⟩
  intro env1 env2 m BIOSLength o1 o2 r1 r2 filename ht1 hi1 ht2 hi2 hr1 hr2 hboth
  have hn1 := filesCreated_resolved env1 m BIOSLength o1 r1 filename hr1 hboth.1
  have hn2 := filesCreated_resolved env2 m BIOSLength o2 r2 filename hr2 hboth.2
  rw [ht1, hi1] at hn1
  rw [ht2, hi2] at hn2
  exact hres filename filename hn1 hn2 rfl

/-- C18 witness: `Type = 'A'`, `Id = 2` and `Type = 'D'`, `Id = 2`. -/
theorem C18_filename_injective_witness :
    formattedName 65 2 ≠ formattedName 68 2 ∧
    (∀ f1 f2, resolveFilename 65 2 = .ret f1 → resolveFilename 68 2 = .ret f2 → f1 ≠ f2) :=
  ⟨(C18_filename_injective 65 2 68 2 (by decide) (by decide) (by decide) (by decide)
      (by decide)).1,
    (C18_filename_injective 65 2 68 2 (by decide) (by decide) (by decide) (by decide)
      (by decide)).2.1⟩

/-! ## C19: termination of the anchor scan -/

/-- The next record lies `Length` bytes after the current one. -/
theorem recordAddr_succ (m : Mem) :
    ∀ (k start : Nat), recordAddr m start (k + 1) =
      recordAddr m start k + le16 m (recordAddr m start k + 8) := by
  intro k
  induction k with
  | zero => intro start; rfl
  | succ k ih =>
    intro start
    show recordAddr m (start + le16 m (start + 8)) (k + 1) = _
    rw [ih]
    rfl

/-- While every record stepped over has `Length >= 1`, record number `k` is
at least `k` bytes after the first. -/
theorem recordAddr_growth (m : Mem) (BIOSLength start : Nat)
    (hpos : ∀ k, (∀ j, j ≤ k → stepsOver m BIOSLength (recordAddr m start j)) →
      1 ≤ le16 m (recordAddr m start k + 8)) :
    ∀ k, (∀ j, j < k → stepsOver m BIOSLength (recordAddr m start j)) →
      start + k ≤ recordAddr m start k := by
  intro k
  induction k with
  | zero => intro _; exact le_refl _
  | succ k ih =>
    intro h
    have h1 := ih (fun j hj => h j (by omega))
    have h2 := hpos k (fun j hj => h j (by omega))
    rw [recordAddr_succ]
    omega

/-- A scan that reaches a record it steps over and whose `Length` is zero
never leaves the loop. -/
theorem scanID_stuck (m : Mem) (BIOSLength : Nat) :
    ∀ (k fuel start : Nat),
      (∀ j, j ≤ k → stepsOver m BIOSLength (recordAddr m start j)) →
      le16 m (recordAddr m start k + 8) = 0 →
      scanID m BIOSLength fuel start = none := by
  intro k
  induction k with
  | zero =>
    intro fuel
    induction fuel with
    | zero => intro start _ _; rfl
    | succ f ihf =>
      intro start hstep hzero
      have h0 := hstep 0 (le_refl _)
      simp only [recordAddr] at h0 hzero
      unfold scanID
      have hnot : ¬ strncmpEq m start BCPSYS = true := fun h =>
        h0.2.2 ((strncmpEq_BCPSYS m start).mp h)
      rw [if_pos ⟨h0.1, h0.2.1⟩, if_neg hnot, hzero, Nat.add_zero]
      exact ihf start hstep (by simpa only [recordAddr] using hzero)
  | succ k ih =>
    intro fuel start hstep hzero
    cases fuel with
    | zero => rfl
    | succ f =>
      have h0 := hstep 0 (by omega)
      simp only [recordAddr] at h0
      unfold scanID
      have hnot : ¬ strncmpEq m start BCPSYS = true := fun h =>
        h0.2.2 ((strncmpEq_BCPSYS m start).mp h)
      rw [if_pos ⟨h0.1, h0.2.1⟩, if_neg hnot]
      apply ih f (start + le16 m (start + 8))
      · intro j hj
        have := hstep (j + 1) (by omega)
        simpa only [recordAddr] using this
      · simpa only [recordAddr] using hzero

/-- While every record stepped over has `Length >= 1`, the scan leaves the
loop at a record whose number is at most `BIOSLength`. -/
theorem scanID_ends (m : Mem) (BIOSLength start : Nat)
    (hpos : ∀ k, (∀ j, j ≤ k → stepsOver m BIOSLength (recordAddr m start j)) →
      1 ≤ le16 m (recordAddr m start k + 8)) :
    ∃ k, k ≤ BIOSLength ∧
      scanID m BIOSLength (k + 1) start = some (recordAddr m start k) := by
  have hex : ∃ k, ¬ stepsOver m BIOSLength (recordAddr m start k) := by
    by_contra hall
    have hall' : ∀ k, stepsOver m BIOSLength (recordAddr m start k) := by
      intro k
      by_contra hk
      exact hall ⟨k, hk⟩
    have hg := recordAddr_growth m BIOSLength start hpos BIOSLength (fun j _ => hall' j)
    have hlt := (hall' BIOSLength).1
    omega
  let k := Nat.find hex
  have hk : ¬ stepsOver m BIOSLength (recordAddr m start k) := Nat.find_spec hex
  have hbefore : ∀ j, j < k → stepsOver m BIOSLength (recordAddr m start j) := by
    intro j hj
    by_contra hj'
    exact Nat.find_min hex hj hj'
  have hle : k ≤ BIOSLength := by
    by_contra hgt
    have hg := recordAddr_growth m BIOSLength start hpos BIOSLength
      (fun j hj => hbefore j (by omega))
    have hlt := (hbefore BIOSLength (by omega)).1
    omega
  refine ⟨k, hle, ?_⟩
  apply scanID_chain m BIOSLength k (k + 1) start (by omega) hbefore
  unfold stepsOver at hk
  by_cases h1 : recordAddr m start k ≥ BIOSLength
  · exact Or.inl h1
  · by_cases h2 : rd8 m (recordAddr m start k) = 0
    · exact Or.inr (Or.inl h2)
    · refine Or.inr (Or.inr ?_)
      by_contra h3
      exact hk ⟨by omega, h2, h3⟩

/-- C19.  The scan that starts at `BCPSegmentOffset + 10` leaves its loop
(for some number of iterations allowed) exactly when it never visits a
record below `BIOSLength` whose first name byte is not zero, whose name is
not `BCPSYS` and whose `Length` is 0.  When every record it steps over has
`Length >= 1`, the record address strictly increases from each such record
to the next, and the loop is left at a record whose number is at most
`BIOSLength`. -/
theorem C19_scan_terminates_iff (m : Mem) (BIOSLength BCPSegmentOffset : Nat) :
    ((∃ fuel ID, scanID m BIOSLength fuel (BCPSegmentOffset + 10) = some ID) ↔
      ¬ ∃ k, (∀ j, j ≤ k →
          stepsOver m BIOSLength (recordAddr m (BCPSegmentOffset + 10) j)) ∧
        le16 m (recordAddr m (BCPSegmentOffset + 10) k + 8) = 0) ∧
    ((∀ k, (∀ j, j ≤ k → stepsOver m BIOSLength (recordAddr m (BCPSegmentOffset + 10) j)) →
        1 ≤ le16 m (recordAddr m (BCPSegmentOffset + 10) k + 8)) →
      (∀ k, (∀ j, j ≤ k → stepsOver m BIOSLength (recordAddr m (BCPSegmentOffset + 10) j)) →
        recordAddr m (BCPSegmentOffset + 10) k < recordAddr m (BCPSegmentOffset + 10) (k + 1)) ∧
      ∃ k, k ≤ BIOSLength ∧
        scanID m BIOSLength (k + 1) (BCPSegmentOffset + 10) =
          some (recordAddr m (BCPSegmentOffset + 10) k)) := by
  constructor
  · constructor
    · rintro ⟨fuel, ID, hscan⟩ ⟨k, hstep, hzero⟩
      rw [scanID_stuck m BIOSLength k fuel _ hstep hzero] at hscan
      exact absurd hscan (by simp)
    · intro hno
      have hpos : ∀ k, (∀ j, j ≤ k →
          stepsOver m BIOSLength (recordAddr m (BCPSegmentOffset + 10) j)) →
          1 ≤ le16 m (recordAddr m (BCPSegmentOffset + 10) k + 8) := by
        intro k hstep
        by_contra hlt
        exact hno ⟨k, hstep, by omega⟩
      obtain ⟨k, _, hk⟩ := scanID_ends m BIOSLength _ hpos
      exact ⟨k + 1, _, hk⟩
  · intro hpos
    refine ⟨?_, scanID_ends m BIOSLength _ hpos⟩
    intro k hstep
    have := hpos k hstep
    rw [recordAddr_succ]
    omega

/-- C19 witness: the first record of `stuckImage` is named `BCPOST` and has
`Length = 0`; seven iterations do not end the scan. -/
theorem C19_scan_terminates_iff_witness :
    scanID stuckImage 0x200 7 (0 + 10) = none :=
  Option.eq_none_iff_forall_not_mem.mpr (fun ID h =>
    (C19_scan_terminates_iff stuckImage 0x200 0).1.mp ⟨7, ID, h⟩ ⟨0, by decide, by decide⟩)

end Phoenix
